import Mathlib

/-!
# Spa-Control: 4-digit 7-segment display driver

A shallow embedding of `src/main.cpp` (ATmega8A, two daisy-chained HEF4094B
shift registers, common-anode display) and theorems about it.

Conventions of the embedding:

* `uint8_t` / `uint16_t` values are natural numbers; `int16_t` and `int` values
  are integers.  Narrowing conversions are written out (`toU8`, `toI16`).
* The three globals `displayBuffer`, `decimalPoints`, `currentDigit` form the
  `State`; every function that writes a global takes and returns a `State`.
* Calls of `digitalWrite` and `delayMicroseconds` are recorded, in program
  order, as a list of `Event`s.
* An array read whose index is outside the array has no defined result in C;
  such a read makes the embedded function return `none`.
-/

namespace SpaControl

/-! ## Constants and tables -/

/-- Arduino pin for DATA (PD5). -/
def DATA_PIN : Nat := 5

/-- Arduino pin for CLOCK (PD6). -/
def CLOCK_PIN : Nat := 6

/-- Arduino pin for STROBE (PD7). -/
def STROBE_PIN : Nat := 7

/-- Arduino logic level `HIGH`. -/
def HIGH : Nat := 1

/-- Arduino logic level `LOW`. -/
def LOW : Nat := 0

/-- Number of digits of the display. -/
def NUM_DIGITS : Nat := 4

/-- Segment patterns (active high), bit order `DP G F E D C B A`. -/
def segmentPatterns : List Nat :=
  [ 0b00111111,  -- 0: A B C D E F
    0b00000110,  -- 1: B C
    0b01011011,  -- 2: A B D E G
    0b01001111,  -- 3: A B C D G
    0b01100110,  -- 4: B C F G
    0b01101101,  -- 5: A C D F G
    0b01111101,  -- 6: A C D E F G
    0b00000111,  -- 7: A B C
    0b01111111,  -- 8: A B C D E F G
    0b01101111,  -- 9: A B C D F G
    0b01110111,  -- A (10)
    0b01111100,  -- b (11)
    0b00111001,  -- C (12)
    0b01011110,  -- d (13)
    0b01111001,  -- E (14)
    0b01110001,  -- F (15)
    0b00000000 ] -- Blank (16)

/-- Digit value that shows nothing. -/
def CHAR_BLANK : Nat := 16

/-- Segment pattern of a dash: just segment G. -/
def CHAR_DASH : Nat := 0b01000000

/-- Digit select patterns (active low, one digit at a time). -/
def digitSelect : List Nat :=
  [ 0b11111110,  -- Digit 1 ON (QP0 LOW)
    0b11111101,  -- Digit 2 ON (QP1 LOW)
    0b11111011,  -- Digit 3 ON (QP2 LOW)
    0b11110111 ] -- Digit 4 ON (QP3 LOW)

/-! ## Machine arithmetic -/

/-- Conversion of an `int` to `uint8_t`: reduction modulo `2^8`. -/
def toU8 (x : Int) : Nat := (x % 256).toNat

/-- Conversion of an `int` to `int16_t`: two's-complement wrap to `[-2^15, 2^15)`. -/
def toI16 (x : Int) : Int := (x + 32768) % 65536 - 32768

/-- The C operator `~` on a (two's-complement) `int`. -/
def bitNot (x : Int) : Int := -x - 1

/-! ## Display state -/

/-- The array `uint8_t displayBuffer[NUM_DIGITS]`: four cells. -/
structure Buffer where
  d0 : Nat
  d1 : Nat
  d2 : Nat
  d3 : Nat
  deriving DecidableEq, Repr

/-- Read of `displayBuffer[i]`; `none` when `i` is outside the array. -/
def Buffer.get? (b : Buffer) (i : Nat) : Option Nat :=
  match i with
  | 0 => some b.d0
  | 1 => some b.d1
  | 2 => some b.d2
  | 3 => some b.d3
  | _ => none

/-- Write `displayBuffer[i] = v` (every write in the program has `i < NUM_DIGITS`). -/
def Buffer.set (b : Buffer) (i : Nat) (v : Nat) : Buffer :=
  match i with
  | 0 => { b with d0 := v }
  | 1 => { b with d1 := v }
  | 2 => { b with d2 := v }
  | 3 => { b with d3 := v }
  | _ => b

/-- The cells of the buffer, position 0 (leftmost digit) first. -/
def Buffer.toList (b : Buffer) : List Nat := [b.d0, b.d1, b.d2, b.d3]

/-- The global variables of the program. -/
structure State where
  displayBuffer : Buffer
  decimalPoints : Nat
  currentDigit : Nat
  deriving DecidableEq, Repr

/-- The globals as initialised at program start. -/
def State.init : State :=
  { displayBuffer := { d0 := 0, d1 := 0, d2 := 0, d3 := 0 }, decimalPoints := 0, currentDigit := 0 }

/-- Assignment `displayBuffer[i] = v`, with the conversion of `v` to `uint8_t`. -/
def State.setBuf (s : State) (i : Nat) (v : Nat) : State :=
  { s with displayBuffer := s.displayBuffer.set i (v % 256) }

/-! ## Output events -/

/-- One call of an Arduino output primitive. -/
inductive Event where
  | digitalWrite (pin : Nat) (val : Nat)
  | delayMicroseconds (us : Nat)
  deriving DecidableEq, Repr

/-- The pin writes of a trace, in order, as `(pin, value)` pairs. -/
def pinWrites : List Event → List (Nat × Nat)
  | [] => []
  | Event.digitalWrite pin val :: es => (pin, val) :: pinWrites es
  | Event.delayMicroseconds _ :: es => pinWrites es

/-- The values written to pin `pin`, in order. -/
def writesTo (pin : Nat) (es : List Event) : List Nat :=
  ((pinWrites es).filter (fun w => w.1 == pin)).map (fun w => w.2)

/-! ## Shift register functions -/

/-- The loop `for (int8_t i = 7; i >= 0; i--)` of `shiftOut16`; the second
argument is `i + 1`, the number of iterations left.  Each iteration presents
bit `i` of `byte` on DATA and pulses CLOCK. -/
def shiftLoop (byte : Nat) : Nat → List Event
  | 0 => []
  | i + 1 =>
    [ Event.digitalWrite DATA_PIN ((byte >>> i) &&& 0x01),
      Event.digitalWrite CLOCK_PIN HIGH,
      Event.delayMicroseconds 1,
      Event.digitalWrite CLOCK_PIN LOW ] ++ shiftLoop byte i

/-- Shift out 16 bits, MSB first: inverted segments, then digit select, then
one STROBE pulse. -/
def shiftOut16 (segments digitSel : Nat) : List Event :=
  let segInverted := toU8 (bitNot segments)
  shiftLoop segInverted 8 ++ shiftLoop digitSel 8 ++
    [ Event.digitalWrite STROBE_PIN HIGH,
      Event.delayMicroseconds 1,
      Event.digitalWrite STROBE_PIN LOW ]

/-- Turn off all segments and digits. -/
def clearDisplay : List Event :=
  shiftOut16 0x00 0xFF

/-! ## Display functions -/

/-- Refresh one digit of the display and step `currentDigit`. -/
def refreshDisplay (s : State) : Option (State × List Event) := do
  let value ← s.displayBuffer.get? s.currentDigit
  let segments ← (if value ≤ 16 then segmentPatterns[value]? else some 0)
  let segments :=
    if s.decimalPoints &&& (1 <<< s.currentDigit) ≠ 0 then (segments ||| 0b10000000) % 256
    else segments
  let digitSel ← digitSelect[s.currentDigit]?
  let events := shiftOut16 segments digitSel
  some ({ s with currentDigit := ((s.currentDigit + 1) % NUM_DIGITS) % 256 }, events)

/-- Set a single digit value; positions outside the display are ignored. -/
def setDigit (s : State) (position value : Nat) : State :=
  if position < NUM_DIGITS then s.setBuf position value else s

/-- Display a 4-digit number, clamped to 9999, optionally blanking leading zeros. -/
def displayNumber (s : State) (number : Nat) (leadingZeros : Bool) : State :=
  let number := if number > 9999 then 9999 else number
  let s := s.setBuf 0 ((number / 1000) % 10)
  let s := s.setBuf 1 ((number / 100) % 10)
  let s := s.setBuf 2 ((number / 10) % 10)
  let s := s.setBuf 3 (number % 10)
  if !leadingZeros then
    if s.displayBuffer.d0 = 0 then
      let s := s.setBuf 0 CHAR_BLANK
      if s.displayBuffer.d1 = 0 then
        let s := s.setBuf 1 CHAR_BLANK
        if s.displayBuffer.d2 = 0 then
          s.setBuf 2 CHAR_BLANK
        else s
      else s
    else s
  else s

/-- Set or clear the decimal point of one position; positions outside the
display are ignored. -/
def setDecimalPoint (s : State) (position : Nat) (onFlag : Bool) : State :=
  if position < NUM_DIGITS then
    if onFlag then
      { s with decimalPoints := toU8 (Int.lor s.decimalPoints (1 <<< position : Nat)) }
    else
      { s with decimalPoints := toU8 (Int.land s.decimalPoints (bitNot (1 <<< position : Nat))) }
  else s

/-- Display a temperature given in tenths of a degree (`int16_t`). -/
def displayTemperature (s : State) (tempTenths : Int) : State :=
  let negative : Bool := decide (tempTenths < 0)
  let tempTenths := if negative then toI16 (-tempTenths) else tempTenths
  let tempTenths := if tempTenths > 999 then 999 else tempTenths
  let hundreds := toU8 (tempTenths.tdiv 100)
  let tens := toU8 ((tempTenths.tdiv 10).tmod 10)
  let ones := toU8 (tempTenths.tmod 10)
  let s :=
    if negative then
      let s := s.setBuf 0 CHAR_BLANK
      s.setBuf 1 (if hundreds > 0 then hundreds else CHAR_BLANK)
    else
      let s := s.setBuf 0 (if hundreds > 0 then hundreds else CHAR_BLANK)
      s.setBuf 1 tens
  let s := s.setBuf 2 (if negative then tens else ones)
  let s := s.setBuf 3 (if negative then ones else CHAR_BLANK)
  { s with decimalPoints := if negative then 0b0100 else 0b0010 }

/-! ## Vocabulary of the specification -/

/-- The eight bits of a byte, most significant first. -/
def msbBits (byte : Nat) : List Nat :=
  [7, 6, 5, 4, 3, 2, 1, 0].map (fun i => byte / 2 ^ i % 2)

/-- The number whose binary digits, most significant first, are `bits`. -/
def ofMsbBits (bits : List Nat) : Nat :=
  bits.foldl (fun acc b => 2 * acc + b) 0

/-- Repeated refresh: `n` consecutive calls of `refreshDisplay`, with the
events of each call kept apart, first call first. -/
def refreshN : Nat → State → Option (State × List (List Event))
  | 0, s => some (s, [])
  | n + 1, s => do
    let (s1, frame) ← refreshDisplay s
    let (s2, frames) ← refreshN n s1
    some (s2, frame :: frames)

/-- The frame that drives position `p`: the call of `shiftOut16` with the
segment pattern of `displayBuffer[p]` (pattern 0 for a value outside the table),
the decimal-point bit added when bit `p` of `decimalPoints` is set, and the
digit-select pattern `digitSelect[p]`. -/
def frameAt (s : State) (p : Nat) : Option (List Event) := do
  let value ← s.displayBuffer.get? p
  let pattern ← (if value ≤ 16 then segmentPatterns[value]? else some 0)
  let digitSel ← digitSelect[p]?
  some (shiftOut16 (if s.decimalPoints.testBit p then pattern ||| 0x80 else pattern) digitSel)

/-! ## Sequences of public operations -/

/-- One call of a public operation of the driver, with its arguments. -/
inductive Op where
  | setDigit (position value : Nat)
  | setDecimalPoint (position : Nat) (onFlag : Bool)
  | displayNumber (number : Nat) (leadingZeros : Bool)
  | displayTemperature (tempTenths : Int)
  | refreshDisplay
  | clearDisplay
  deriving DecidableEq, Repr

/-- The effect of one public operation: the state it leaves and the output
events it produces.  The functions that contain no output call produce no
event; `clearDisplay` writes no global. -/
def step (s : State) : Op → Option (State × List Event)
  | Op.setDigit position value => some (setDigit s position value, [])
  | Op.setDecimalPoint position onFlag => some (setDecimalPoint s position onFlag, [])
  | Op.displayNumber number leadingZeros => some (displayNumber s number leadingZeros, [])
  | Op.displayTemperature tempTenths => some (displayTemperature s tempTenths, [])
  | Op.refreshDisplay => refreshDisplay s
  | Op.clearDisplay => some (s, clearDisplay)

/-- The effect of a sequence of public operations, first operation first. -/
def run (s : State) : List Op → Option (State × List Event)
  | [] => some (s, [])
  | op :: ops => do
    let (s1, events1) ← step s op
    let (s2, events2) ← run s1 ops
    some (s2, events1 ++ events2)

/-- Arguments within the documented ranges: a digit value for `setDigit` is
0-15 or BLANK, a temperature has a magnitude that fits `int16_t`. -/
def Op.documented : Op → Prop
  | Op.setDigit _ value => value ≤ CHAR_BLANK
  | Op.displayTemperature tempTenths => -32767 ≤ tempTenths ∧ tempTenths ≤ 32767
  | _ => True

/-- A digit value of the data model: 0-15 or BLANK. -/
def isDigitValue (v : Nat) : Prop := v ≤ CHAR_BLANK

/-! ## The documented segment encoding -/

/-- The segments of a digit, with the decimal point. -/
inductive Segment where
  | A | B | C | D | E | F | G | DP
  deriving DecidableEq, Repr

/-- Bit of a segment in a pattern, bit order `DP G F E D C B A`. -/
def Segment.bit : Segment → Nat
  | Segment.A => 0
  | Segment.B => 1
  | Segment.C => 2
  | Segment.D => 3
  | Segment.E => 4
  | Segment.F => 5
  | Segment.G => 6
  | Segment.DP => 7

/-- All eight segments. -/
def Segment.all : List Segment :=
  [Segment.A, Segment.B, Segment.C, Segment.D, Segment.E, Segment.F, Segment.G, Segment.DP]

/-- The segments documented as lit for each glyph: 0-9, A, b, C, d, E, F, blank. -/
def documentedSegments : List (List Segment) :=
  [ [Segment.A, Segment.B, Segment.C, Segment.D, Segment.E, Segment.F],              -- 0
    [Segment.B, Segment.C],                                                          -- 1
    [Segment.A, Segment.B, Segment.D, Segment.E, Segment.G],                         -- 2
    [Segment.A, Segment.B, Segment.C, Segment.D, Segment.G],                         -- 3
    [Segment.B, Segment.C, Segment.F, Segment.G],                                    -- 4
    [Segment.A, Segment.C, Segment.D, Segment.F, Segment.G],                         -- 5
    [Segment.A, Segment.C, Segment.D, Segment.E, Segment.F, Segment.G],              -- 6
    [Segment.A, Segment.B, Segment.C],                                               -- 7
    [Segment.A, Segment.B, Segment.C, Segment.D, Segment.E, Segment.F, Segment.G],   -- 8
    [Segment.A, Segment.B, Segment.C, Segment.D, Segment.F, Segment.G],              -- 9
    [Segment.A, Segment.B, Segment.C, Segment.E, Segment.F, Segment.G],              -- A
    [Segment.C, Segment.D, Segment.E, Segment.F, Segment.G],                         -- b
    [Segment.A, Segment.D, Segment.E, Segment.F],                                    -- C
    [Segment.B, Segment.C, Segment.D, Segment.E, Segment.G],                         -- d
    [Segment.A, Segment.D, Segment.E, Segment.F, Segment.G],                         -- E
    [Segment.A, Segment.E, Segment.F, Segment.G],                                    -- F
    [] ]                                                                             -- blank

/-- The pattern that lights exactly the given segments. -/
def encodeSegments (segments : List Segment) : Nat :=
  segments.foldl (fun acc seg => acc ||| (1 <<< seg.bit)) 0

/-! ## The shift register chain -/

/-- Modelled from the spec: the two daisy-chained HEF4094B registers U6 -> U7
(hardware, described by the header comment of `main.cpp`): a 16-stage shift
register, stage 0 = U6.QP0, ..., stage 7 = U6.QP7, stage 8 = U7.QP0, ...,
stage 15 = U7.QP7, the level last written to DATA, and the latched outputs. -/
structure Chain where
  stages : List Nat
  outputs : List Nat
  data : Nat
  deriving DecidableEq, Repr

/-- Modelled from the spec: the reaction of the chain to one pin write.  A write
to DATA sets the input level; a CLOCK pulse (the write of HIGH) moves every
stage one place down the chain and loads the DATA level into stage 0; a STROBE
pulse (the write of HIGH) copies the stages to the outputs. -/
def Chain.write (c : Chain) (pin val : Nat) : Chain :=
  if pin = DATA_PIN then { c with data := val }
  else if pin = CLOCK_PIN then
    if val = LOW then c else { c with stages := (c.data :: c.stages).take 16 }
  else if pin = STROBE_PIN then
    if val = LOW then c else { c with outputs := c.stages }
  else c

/-- Modelled from the spec: the chain after a trace of output events. -/
def Chain.run (c : Chain) : List Event → Chain
  | [] => c
  | Event.digitalWrite pin val :: es => (c.write pin val).run es
  | Event.delayMicroseconds _ :: es => c.run es

/-! ## Theorems: `displayNumber` -/

/-- Closed form of the buffer written by `displayNumber`. -/
theorem displayNumber_buffer (s : State) (n : Nat) (lz : Bool) :
    (displayNumber s n lz).displayBuffer =
      { d0 := if lz = false ∧ min n 9999 < 1000 then CHAR_BLANK else min n 9999 / 1000 % 10,
        d1 := if lz = false ∧ min n 9999 < 100 then CHAR_BLANK else min n 9999 / 100 % 10,
        d2 := if lz = false ∧ min n 9999 < 10 then CHAR_BLANK else min n 9999 / 10 % 10,
        d3 := min n 9999 % 10 } := by
  have hm : (if n > 9999 then 9999 else n) = min n 9999 := by
    split_ifs <;> omega
  have hle : min n 9999 ≤ 9999 := Nat.min_le_right _ _
  simp only [displayNumber, hm]
  generalize min n 9999 = m at hle
  have e0 : m / 1000 % 10 % 256 = m / 1000 % 10 := by omega
  have e1 : m / 100 % 10 % 256 = m / 100 % 10 := by omega
  have e2 : m / 10 % 10 % 256 = m / 10 % 10 := by omega
  have e3 : m % 10 % 256 = m % 10 := by omega
  have z0 : m / 1000 % 10 = 0 ↔ m < 1000 := by omega
  have z1 : m < 1000 → (m / 100 % 10 = 0 ↔ m < 100) := by omega
  have z2 : m < 100 → (m / 10 % 10 = 0 ↔ m < 10) := by omega
  have l1 : m < 100 → m < 1000 := by omega
  have l2 : m < 10 → m < 100 := by omega
  cases lz
  · simp only [State.setBuf, Buffer.set, CHAR_BLANK, e0, e1, e2, e3, z0, Bool.not_false,
      if_true, true_and]
    by_cases h0 : m < 1000
    · by_cases h1 : m < 100
      · by_cases h2 : m < 10
        · simp [h0, h1, h2, z1 h0, z2 h1]
        · simp [h0, h1, h2, z1 h0, z2 h1]
      · have h2 : ¬ m < 10 := fun h => h1 (l2 h)
        simp [h0, h1, h2, z1 h0]
    · have h1 : ¬ m < 100 := fun h => h0 (l1 h)
      have h2 : ¬ m < 10 := fun h => h1 (l2 h)
      simp [h0, h1, h2]
  · simp [State.setBuf, Buffer.set, e0, e1, e2, e3]


/-- C1: after `displayNumber n leadingZeros`, with `m = min n 9999`, position
`i < 4` holds BLANK when `leadingZeros` is false, `i < 3` and `m < 10^(3-i)`,
and the decimal digit `(m / 10^(3-i)) mod 10` otherwise. -/
theorem displayNumber_digits (s : State) (n : Nat) (leadingZeros : Bool) (hn : n < 65536) :
    (∀ i, i < 4 →
      (displayNumber s n leadingZeros).displayBuffer.get? i =
        some (if leadingZeros = false ∧ i < 3 ∧ min n 9999 < 10 ^ (3 - i) then CHAR_BLANK
              else min n 9999 / 10 ^ (3 - i) % 10)) ∧
    (∀ i, i < 4 →
      ((displayNumber s n leadingZeros).displayBuffer.get? i = some CHAR_BLANK ↔
        leadingZeros = false ∧ i < 3 ∧ ∀ j, j ≤ i → min n 9999 / 10 ^ (3 - j) % 10 = 0)) ∧
    (displayNumber s n leadingZeros).displayBuffer.d3 = min n 9999 % 10 ∧
    (displayNumber s n leadingZeros).displayBuffer.d3 ≠ CHAR_BLANK ∧
    (displayNumber s 0 false).displayBuffer.toList = [CHAR_BLANK, CHAR_BLANK, CHAR_BLANK, 0] ∧
    (displayNumber s 42 false).displayBuffer.toList = [CHAR_BLANK, CHAR_BLANK, 4, 2] := by
  have hle : min n 9999 ≤ 9999 := Nat.min_le_right _ _
  have _hn := hn
  refine ⟨?_, ?_, ?_, ?_, ?_, ?_⟩
  · intro i hi
    rw [displayNumber_buffer]
    interval_cases i <;> simp [Buffer.get?]
  · intro i hi
    rw [displayNumber_buffer]
    generalize min n 9999 = m at hle
    interval_cases i
    · simp only [Buffer.get?, CHAR_BLANK, Option.some.injEq]
      constructor
      · intro h
        split_ifs at h with hc
        · refine ⟨hc.1, by omega, ?_⟩
          intro j hj
          interval_cases j
          simp; omega
        · omega
      · rintro ⟨h1, -, h3⟩
        have := h3 0 (le_refl _)
        simp at this
        rw [if_pos ⟨h1, by omega⟩]
    · simp only [Buffer.get?, CHAR_BLANK, Option.some.injEq]
      constructor
      · intro h
        split_ifs at h with hc
        · refine ⟨hc.1, by omega, ?_⟩
          intro j hj
          interval_cases j <;> simp <;> omega
        · omega
      · rintro ⟨h1, -, h3⟩
        have a0 := h3 0 (by omega)
        have a1 := h3 1 (le_refl _)
        simp at a0 a1
        rw [if_pos ⟨h1, by omega⟩]
    · simp only [Buffer.get?, CHAR_BLANK, Option.some.injEq]
      constructor
      · intro h
        split_ifs at h with hc
        · refine ⟨hc.1, by omega, ?_⟩
          intro j hj
          interval_cases j <;> simp <;> omega
        · omega
      · rintro ⟨h1, -, h3⟩
        have a0 := h3 0 (by omega)
        have a1 := h3 1 (by omega)
        have a2 := h3 2 (le_refl _)
        simp at a0 a1 a2
        rw [if_pos ⟨h1, by omega⟩]
    · simp only [Buffer.get?, CHAR_BLANK, Option.some.injEq]
      constructor
      · intro h; omega
      · rintro ⟨-, h2, -⟩; omega
  · rw [displayNumber_buffer]
  · rw [displayNumber_buffer]
    simp only [CHAR_BLANK]
    omega
  · rw [displayNumber_buffer]
    simp [Buffer.toList, CHAR_BLANK]
  · rw [displayNumber_buffer]
    simp [Buffer.toList, CHAR_BLANK]

/-- C1 at `n = 42`, leading zeros hidden, position 1: the hundreds digit is blanked. -/
theorem displayNumber_digits_witness :
    (42 : Nat) < 65536 ∧ (1 : Nat) < 4 ∧
      (displayNumber State.init 42 false).displayBuffer.get? 1 =
        some (if false = false ∧ 1 < 3 ∧ min 42 9999 < 10 ^ (3 - 1) then CHAR_BLANK
              else min 42 9999 / 10 ^ (3 - 1) % 10) :=
  ⟨by decide, by decide, (displayNumber_digits State.init 42 false (by decide)).1 1 (by decide)⟩

/-- C2: every 16-bit `n > 9999` is displayed exactly as 9999 is: the state left
by `displayNumber n` equals the one left by `displayNumber 9999`, and its buffer
is `[9, 9, 9, 9]`. -/
theorem displayNumber_saturates (s : State) (n : Nat) (leadingZeros : Bool)
    (hlo : 9999 < n) (hn : n < 65536) :
    displayNumber s n leadingZeros = displayNumber s 9999 leadingZeros ∧
    (displayNumber s n leadingZeros).displayBuffer.toList = [9, 9, 9, 9] := by
  have _hn := hn
  have hm : min n 9999 = 9999 := by omega
  refine ⟨?_, ?_⟩
  · simp only [displayNumber]
    rw [if_pos hlo, if_neg (by decide : ¬ (9999 : Nat) > 9999)]
  · rw [displayNumber_buffer, hm]
    cases leadingZeros <;> simp [Buffer.toList]

/-- C2 at `n = 12345`. -/
theorem displayNumber_saturates_witness :
    displayNumber State.init 12345 false = displayNumber State.init 9999 false ∧
    (displayNumber State.init 12345 false).displayBuffer.toList = [9, 9, 9, 9] :=
  displayNumber_saturates State.init 12345 false (by decide) (by decide)


/-! ## Theorems: `shiftOut16` -/

theorem toU8_bitNot (x : Nat) (h : x < 256) : toU8 (bitNot x) = 255 - x := by
  unfold toU8 bitNot; omega

theorem testBit_complement (x i : Nat) (hx : x < 256) (hi : i < 8) :
    (255 - x).testBit i = !x.testBit i := by
  have hx8 : x < 2 ^ 8 := by omega
  have h := Nat.testBit_two_pow_sub_succ hx8 i
  have e : 2 ^ 8 - (x + 1) = 255 - x := by omega
  rw [e] at h
  rw [h]
  simp [hi]

theorem ofMsbBits_msbBits (b : Nat) (h : b < 256) : ofMsbBits (msbBits b) = b := by
  simp only [ofMsbBits, msbBits, List.map_cons, List.map_nil, List.foldl_cons, List.foldl_nil]
  norm_num
  omega

/-- The pin writes of one run of the bit loop over a whole byte. -/
theorem pinWrites_shiftLoop (b : Nat) (rest : List Event) :
    pinWrites (shiftLoop b 8 ++ rest) =
      (msbBits b).flatMap (fun v => [(DATA_PIN, v), (CLOCK_PIN, HIGH), (CLOCK_PIN, LOW)]) ++
        pinWrites rest := by
  simp [shiftLoop, pinWrites, msbBits, Nat.shiftRight_eq_div_pow]

/-- The pin writes of `shiftOut16`, in full. -/
theorem pinWrites_shiftOut16 (segments digitSel : Nat) :
    pinWrites (shiftOut16 segments digitSel) =
      (msbBits (toU8 (bitNot segments)) ++ msbBits digitSel).flatMap
          (fun v => [(DATA_PIN, v), (CLOCK_PIN, HIGH), (CLOCK_PIN, LOW)]) ++
        [(STROBE_PIN, HIGH), (STROBE_PIN, LOW)] := by
  simp only [shiftOut16, List.append_assoc, pinWrites_shiftLoop, List.flatMap_append]
  simp [pinWrites]

/-- The values `shiftOut16` writes to DATA. -/
theorem writesTo_data_shiftOut16 (segments digitSel : Nat) :
    writesTo DATA_PIN (shiftOut16 segments digitSel) =
      msbBits (toU8 (bitNot segments)) ++ msbBits digitSel := by
  rw [writesTo, pinWrites_shiftOut16]
  simp [msbBits, DATA_PIN, CLOCK_PIN, STROBE_PIN]

/-- Every entry of the segment table has the decimal-point bit clear. -/
theorem segmentPatterns_lt (value pattern : Nat) (h : segmentPatterns[value]? = some pattern) :
    pattern < 128 := by
  have hv : value < 17 := by
    by_contra hc
    have hlen : segmentPatterns.length ≤ value := by
      simp only [segmentPatterns, List.length_cons, List.length_nil]; omega
    rw [List.getElem?_eq_none hlen] at h
    exact Option.noConfusion h
  interval_cases value <;> simp [segmentPatterns] at h <;> omega

/-- A list that ends in `x :: tail`, with `x` occurring nowhere else, splits at
`x` in exactly one way. -/
theorem split_at_unique {α : Type} (x : α) (tail : List α) (hx : x ∉ tail) :
    ∀ (front pre post : List α), x ∉ front → front ++ x :: tail = pre ++ x :: post →
      pre = front ∧ post = tail := by
  intro front
  induction front with
  | nil =>
    intro pre post _ h
    cases pre with
    | nil =>
      simp only [List.nil_append, List.cons.injEq, true_and] at h
      exact ⟨rfl, h.symm⟩
    | cons p pre =>
      simp only [List.nil_append, List.cons_append, List.cons.injEq] at h
      exact absurd (h.2 ▸ List.mem_append_right pre (List.mem_cons_self x post)) hx
  | cons a front ih =>
    intro pre post hf h
    cases pre with
    | nil =>
      simp only [List.nil_append, List.cons_append, List.cons.injEq] at h
      exact absurd (h.1 ▸ List.mem_cons_self a front) hf
    | cons p pre =>
      simp only [List.cons_append, List.cons.injEq] at h
      have hf2 : x ∉ front := fun hm => hf (List.mem_cons_of_mem a hm)
      obtain ⟨h1, h2⟩ := ih pre post hf2 h.2
      exact ⟨by rw [h.1, h1], h2⟩

/-- The first eight DATA bits of `shiftOut16` are the complement of `segments`. -/
theorem wire_segment_bits (segments digitSel : Nat) (hs : segments < 256) :
    (writesTo DATA_PIN (shiftOut16 segments digitSel)).take 8 = msbBits (255 - segments) := by
  rw [writesTo_data_shiftOut16, toU8_bitNot segments hs]
  simp [msbBits]

/-- The segment byte on the wire, read back from the DATA bits. -/
theorem wire_segment_byte (segments digitSel : Nat) (hs : segments < 256) :
    ofMsbBits ((writesTo DATA_PIN (shiftOut16 segments digitSel)).take 8) = 255 - segments := by
  rw [wire_segment_bits segments digitSel hs]
  exact ofMsbBits_msbBits _ (by omega)

/-- The digit-select byte on the wire, read back from the DATA bits. -/
theorem wire_select_byte (segments digitSel : Nat) (hd : digitSel < 256) :
    ofMsbBits ((writesTo DATA_PIN (shiftOut16 segments digitSel)).drop 8) = digitSel := by
  rw [writesTo_data_shiftOut16]
  have e : (msbBits (toU8 (bitNot segments)) ++ msbBits digitSel).drop 8 = msbBits digitSel := by
    simp [msbBits]
  rw [e]
  exact ofMsbBits_msbBits _ hd

/-- C3: the values `shiftOut16` writes to DATA are 16 bits: the bitwise
complement of `segments`, most significant bit first, then `digitSel`
unmodified, most significant bit first. -/
theorem shiftOut16_wire_data (segments digitSel : Nat)
    (hs : segments < 256) (hd : digitSel < 256) :
    (writesTo DATA_PIN (shiftOut16 segments digitSel)).length = 16 ∧
    writesTo DATA_PIN (shiftOut16 segments digitSel) =
      msbBits (255 - segments) ++ msbBits digitSel ∧
    (∀ i, i < 8 → (255 - segments).testBit i = !segments.testBit i) ∧
    ofMsbBits ((writesTo DATA_PIN (shiftOut16 segments digitSel)).take 8) = 255 - segments ∧
    ofMsbBits ((writesTo DATA_PIN (shiftOut16 segments digitSel)).drop 8) = digitSel ∧
    (∀ value pattern, value ≤ 15 → segmentPatterns[value]? = some pattern →
      ofMsbBits ((writesTo DATA_PIN (shiftOut16 pattern digitSel)).take 8) = 255 - pattern ∧
      ∀ i, i < 8 → (255 - pattern).testBit i = !pattern.testBit i) ∧
    (writesTo DATA_PIN (shiftOut16 0xFF digitSel)).take 8 = [0, 0, 0, 0, 0, 0, 0, 0] ∧
    ofMsbBits ((writesTo DATA_PIN (shiftOut16 0xFF digitSel)).take 8) = 0x00 := by
  have key : ∀ seg, seg < 256 →
      (writesTo DATA_PIN (shiftOut16 seg digitSel)).take 8 = msbBits (255 - seg) :=
    fun seg hseg => wire_segment_bits seg digitSel hseg
  refine ⟨?_, ?_, ?_, ?_, ?_, ?_, ?_, ?_⟩
  · rw [writesTo_data_shiftOut16]
    simp [msbBits]
  · rw [writesTo_data_shiftOut16, toU8_bitNot segments hs]
  · intro i hi
    exact testBit_complement segments i hs hi
  · rw [key segments hs]
    exact ofMsbBits_msbBits _ (by omega)
  · exact wire_select_byte segments digitSel hd
  · intro value pattern _ hp
    have hlt : pattern < 256 := by
      have := segmentPatterns_lt value pattern hp
      omega
    refine ⟨?_, fun i hi => testBit_complement pattern i hlt hi⟩
    rw [key pattern hlt]
    exact ofMsbBits_msbBits _ (by omega)
  · rw [key 0xFF (by decide)]
    simp [msbBits]
  · rw [key 0xFF (by decide)]
    simp [msbBits, ofMsbBits]

/-- C3 at `segments = 0x3F` (the pattern of digit 0) and `digitSel = 0xFE`. -/
theorem shiftOut16_wire_data_witness :
    writesTo DATA_PIN (shiftOut16 0x3F 0xFE) = msbBits (255 - 0x3F) ++ msbBits 0xFE :=
  (shiftOut16_wire_data 0x3F 0xFE (by decide) (by decide)).2.1

/-- C4: the pin writes of `shiftOut16` are 16 repetitions of (write DATA,
CLOCK high, CLOCK low) followed by one (STROBE high, STROBE low) pulse; STROBE
is written high at one point of the trace only, after all 16 clock pulses. -/
theorem shiftOut16_clock_latch_order (segments digitSel : Nat) :
    ∃ bits : List Nat, bits.length = 16 ∧
      pinWrites (shiftOut16 segments digitSel) =
        bits.flatMap (fun v => [(DATA_PIN, v), (CLOCK_PIN, HIGH), (CLOCK_PIN, LOW)]) ++
          [(STROBE_PIN, HIGH), (STROBE_PIN, LOW)] ∧
      ∀ pre post, pinWrites (shiftOut16 segments digitSel) = pre ++ (STROBE_PIN, HIGH) :: post →
        pre = bits.flatMap (fun v => [(DATA_PIN, v), (CLOCK_PIN, HIGH), (CLOCK_PIN, LOW)]) ∧
        post = [(STROBE_PIN, LOW)] ∧
        pre.count (CLOCK_PIN, HIGH) = 16 ∧ pre.count (CLOCK_PIN, LOW) = 16 ∧
        (∀ w, w ∈ pre → w.1 ≠ STROBE_PIN) := by
  refine ⟨msbBits (toU8 (bitNot segments)) ++ msbBits digitSel, by simp [msbBits],
    pinWrites_shiftOut16 segments digitSel, ?_⟩
  intro pre post hsplit
  rw [pinWrites_shiftOut16] at hsplit
  have hfront : (STROBE_PIN, HIGH) ∉
      (msbBits (toU8 (bitNot segments)) ++ msbBits digitSel).flatMap
        (fun v => [(DATA_PIN, v), (CLOCK_PIN, HIGH), (CLOCK_PIN, LOW)]) := by
    simp [List.mem_flatMap, STROBE_PIN, DATA_PIN, CLOCK_PIN]
  have htail : (STROBE_PIN, HIGH) ∉ [(STROBE_PIN, LOW)] := by
    simp [HIGH, LOW]
  obtain ⟨hpre, hpost⟩ := split_at_unique _ _ htail _ pre post hfront hsplit
  refine ⟨hpre, hpost, ?_, ?_, ?_⟩
  · rw [hpre]
    simp [msbBits, List.count_cons, DATA_PIN, CLOCK_PIN, HIGH, LOW]
  · rw [hpre]
    simp [msbBits, List.count_cons, DATA_PIN, CLOCK_PIN, HIGH, LOW]
  · intro w hw
    rw [hpre] at hw
    simp only [List.mem_flatMap, List.mem_cons, List.mem_singleton, List.not_mem_nil,
      or_false] at hw
    obtain ⟨v, -, h | h | h⟩ := hw <;> rw [h] <;> simp [STROBE_PIN, DATA_PIN, CLOCK_PIN]

/-- C4 at `segments = 0x3F`, `digitSel = 0xFE`: the trace has the stated shape. -/
theorem shiftOut16_clock_latch_order_witness :
    ∃ bits : List Nat, bits.length = 16 ∧
      pinWrites (shiftOut16 0x3F 0xFE) =
        bits.flatMap (fun v => [(DATA_PIN, v), (CLOCK_PIN, HIGH), (CLOCK_PIN, LOW)]) ++
          [(STROBE_PIN, HIGH), (STROBE_PIN, LOW)] :=
  (shiftOut16_clock_latch_order 0x3F 0xFE).imp (fun _ h => ⟨h.1, h.2.1⟩)


/-! ## Theorems: `refreshDisplay` and `digitSelect` -/

theorem and_shift_ne_zero_iff (x i : Nat) : x &&& (1 <<< i) ≠ 0 ↔ x.testBit i = true := by
  rw [Nat.one_shiftLeft]
  constructor
  · intro h
    by_contra hc
    apply h
    apply Nat.eq_of_testBit_eq
    intro j
    rw [Nat.testBit_and, Nat.testBit_two_pow, Nat.zero_testBit]
    by_cases hij : i = j
    · subst hij; simp [hc]
    · simp [hij]
  · intro h h0
    have := Nat.testBit_and x (2 ^ i) i
    rw [h0, Nat.zero_testBit, h, Nat.testBit_two_pow_self] at this
    exact Bool.noConfusion this

theorem or_dp_mod (pattern : Nat) (h : pattern < 128) :
    (pattern ||| 0b10000000) % 256 = pattern ||| 0x80 := by
  apply Nat.mod_eq_of_lt
  exact Nat.or_lt_two_pow (n := 8) (by omega) (by decide)

theorem or_dp_testBit (pattern : Nat) : (pattern ||| 0x80).testBit 7 = true := by
  rw [Nat.testBit_or]
  have : (0x80 : Nat).testBit 7 = true := by decide
  simp [this]

/-- The pattern `refreshDisplay` looks up for a stored value. -/
theorem lookup_pattern (value : Nat) :
    ∃ pattern, (if value ≤ 16 then segmentPatterns[value]? else some 0) = some pattern ∧
      pattern < 128 ∧ (16 < value → pattern = 0) := by
  by_cases hv : value ≤ 16
  · have hlen : value < segmentPatterns.length := by
      simp only [segmentPatterns, List.length_cons, List.length_nil]; omega
    refine ⟨segmentPatterns[value], ?_, ?_, fun h => absurd hv (by omega)⟩
    · rw [if_pos hv, List.getElem?_eq_getElem hlen]
    · exact segmentPatterns_lt value _ (List.getElem?_eq_getElem hlen)
  · exact ⟨0, by rw [if_neg hv], by decide, fun _ => rfl⟩

theorem buffer_get?_lt (b : Buffer) (i : Nat) (hi : i < 4) : ∃ value, b.get? i = some value := by
  interval_cases i <;> exact ⟨_, rfl⟩

theorem digitSelect_lt (i : Nat) (hi : i < 4) :
    ∃ sel, digitSelect[i]? = some sel ∧ sel < 256 := by
  interval_cases i <;> exact ⟨_, rfl, by decide⟩

/-- What `refreshDisplay` does in a state whose `currentDigit` is inside the display. -/
theorem refreshDisplay_eq (s : State) (hi : s.currentDigit < 4) :
    ∃ frame, frameAt s s.currentDigit = some frame ∧
      refreshDisplay s =
        some ({ s with currentDigit := (s.currentDigit + 1) % 4 }, frame) := by
  obtain ⟨value, hvalue⟩ := buffer_get?_lt s.displayBuffer s.currentDigit hi
  obtain ⟨pattern, hpattern, hlt, -⟩ := lookup_pattern value
  obtain ⟨sel, hsel, -⟩ := digitSelect_lt s.currentDigit hi
  have hmod : (s.currentDigit + 1) % 4 % 256 = (s.currentDigit + 1) % 4 := by omega
  refine ⟨shiftOut16
    (if s.decimalPoints.testBit s.currentDigit then pattern ||| 0x80 else pattern) sel, ?_, ?_⟩
  · simp only [frameAt, hvalue, hpattern, hsel, Option.bind_eq_bind, Option.some_bind]
  · simp only [refreshDisplay, hvalue, hpattern, hsel, Option.bind_eq_bind, Option.some_bind,
      NUM_DIGITS, hmod, and_shift_ne_zero_iff, or_dp_mod pattern hlt]

/-- C5: in a state with `currentDigit = i < 4`, `refreshDisplay` makes one call
of `shiftOut16`, with segment argument the table pattern of `displayBuffer[i]`,
OR-ed with `0x80` exactly when bit `i` of `decimalPoints` is set, and with
digit-select argument `digitSelect[i]`; on the wire, bit 7 of the segment byte
is 0 exactly when that decimal-point bit is set. -/
theorem refreshDisplay_frame (s : State) (i : Nat) (hcur : s.currentDigit = i) (hi : i < 4) :
    ∃ value pattern digitSel,
      s.displayBuffer.get? i = some value ∧
      (value ≤ 16 → segmentPatterns[value]? = some pattern) ∧
      (16 < value → pattern = 0) ∧
      pattern.testBit 7 = false ∧
      digitSelect[i]? = some digitSel ∧
      refreshDisplay s =
        some ({ s with currentDigit := (i + 1) % 4 },
          shiftOut16 (if s.decimalPoints.testBit i then pattern ||| 0x80 else pattern) digitSel) ∧
      (ofMsbBits ((writesTo DATA_PIN
          (shiftOut16 (if s.decimalPoints.testBit i then pattern ||| 0x80 else pattern)
            digitSel)).take 8)).testBit 7 = !s.decimalPoints.testBit i := by
  subst hcur
  obtain ⟨value, hvalue⟩ := buffer_get?_lt s.displayBuffer s.currentDigit hi
  obtain ⟨pattern, hpattern, hlt, hblank⟩ := lookup_pattern value
  obtain ⟨sel, hsel, -⟩ := digitSelect_lt s.currentDigit hi
  obtain ⟨frame, hframe, hrefresh⟩ := refreshDisplay_eq s hi
  have hbit7 : pattern.testBit 7 = false := Nat.testBit_lt_two_pow (by omega)
  have hframe2 : frame =
      shiftOut16 (if s.decimalPoints.testBit s.currentDigit then pattern ||| 0x80 else pattern)
        sel := by
    simp only [frameAt, hvalue, hpattern, hsel, Option.bind_eq_bind, Option.some_bind,
      Option.some.injEq] at hframe
    exact hframe.symm
  refine ⟨value, pattern, sel, hvalue, ?_, hblank, hbit7, hsel, ?_, ?_⟩
  · intro hv
    rw [if_pos hv] at hpattern
    exact hpattern
  · rw [hrefresh, hframe2]
  · have hseg : (if s.decimalPoints.testBit s.currentDigit then pattern ||| 0x80 else pattern)
        < 256 := by
      split_ifs
      · exact Nat.or_lt_two_pow (n := 8) (by omega) (by decide)
      · omega
    rw [wire_segment_byte _ _ hseg, testBit_complement _ 7 hseg (by decide)]
    cases hdp : s.decimalPoints.testBit s.currentDigit
    · simp [hbit7]
    · have h80 := or_dp_testBit pattern
      simp only [if_true, h80, Bool.not_true]

/-- C5 at the state after `displayTemperature 385`, refreshing position 1 (the
digit 8 with its decimal point). -/
theorem refreshDisplay_frame_witness :
    ∃ value pattern digitSel,
      ({ displayTemperature State.init 385 with currentDigit := 1 } : State).displayBuffer.get? 1
        = some value ∧
      (value ≤ 16 → segmentPatterns[value]? = some pattern) ∧
      digitSelect[1]? = some digitSel ∧
      refreshDisplay { displayTemperature State.init 385 with currentDigit := 1 } =
        some ({ displayTemperature State.init 385 with currentDigit := 2 },
          shiftOut16 (pattern ||| 0x80) digitSel) := by
  obtain ⟨value, pattern, digitSel, h1, h2, -, -, h5, h6, -⟩ :=
    refreshDisplay_frame { displayTemperature State.init 385 with currentDigit := 1 } 1 rfl
      (by decide)
  have hdp : (displayTemperature State.init 385).decimalPoints.testBit 1 = true := by decide
  refine ⟨value, pattern, digitSel, h1, h2, h5, ?_⟩
  rw [h6]
  simp [hdp]

/-- C7: for every position `p < 4`, `digitSelect[p]` is the byte
`0xFF XOR (1 << p)`: bit `p` is its only cleared bit among bits 0..7. -/
theorem digitSelect_one_cold (p : Nat) (hp : p < NUM_DIGITS) :
    ∃ pattern, digitSelect[p]? = some pattern ∧
      pattern = 0xFF ^^^ (1 <<< p) ∧
      pattern < 256 ∧
      (∀ b, b < 8 → (pattern.testBit b = false ↔ b = p)) ∧
      (∀ b, 4 ≤ b → b < 8 → pattern.testBit b = true) := by
  simp only [NUM_DIGITS] at hp
  interval_cases p
  · exact ⟨0b11111110, rfl, by decide, by decide, by decide, by decide⟩
  · exact ⟨0b11111101, rfl, by decide, by decide, by decide, by decide⟩
  · exact ⟨0b11111011, rfl, by decide, by decide, by decide, by decide⟩
  · exact ⟨0b11110111, rfl, by decide, by decide, by decide, by decide⟩

/-- C7 at position 2. -/
theorem digitSelect_one_cold_witness :
    ∃ pattern, digitSelect[2]? = some pattern ∧ pattern = 0xFF ^^^ (1 <<< 2) :=
  (digitSelect_one_cold 2 (by decide)).imp (fun _ h => ⟨h.1, h.2.1⟩)


theorem frameAt_congr (s : State) (c p : Nat) :
    frameAt { s with currentDigit := c } p = frameAt s p := rfl

/-- The run of `n` refreshes from a state whose `currentDigit` is inside the display. -/
theorem refreshN_eq : ∀ (n : Nat) (s : State), s.currentDigit < 4 →
    ∃ frames, refreshN n s = some ({ s with currentDigit := (s.currentDigit + n) % 4 }, frames) ∧
      frames.length = n ∧
      ∀ k, k < n → frames[k]? = frameAt s ((s.currentDigit + k) % 4) ∧
        ∃ frame, frameAt s ((s.currentDigit + k) % 4) = some frame := by
  intro n
  induction n with
  | zero =>
    intro s hs
    refine ⟨[], ?_, rfl, fun k hk => absurd hk (Nat.not_lt_zero k)⟩
    have e : (s.currentDigit + 0) % 4 = s.currentDigit := by omega
    rw [e]
    rfl
  | succ n ih =>
    intro s hs
    obtain ⟨frame, hframe, hrefresh⟩ := refreshDisplay_eq s hs
    have hs1 : ({ s with currentDigit := (s.currentDigit + 1) % 4 } : State).currentDigit < 4 :=
      Nat.mod_lt _ (by decide)
    obtain ⟨frames, hrun, hlen, hk⟩ := ih _ hs1
    refine ⟨frame :: frames, ?_, by simp [hlen], ?_⟩
    · have e : ((s.currentDigit + 1) % 4 + n) % 4 = (s.currentDigit + (n + 1)) % 4 := by omega
      simp only [e] at hrun
      simp only [refreshN, hrefresh, hrun, Option.bind_eq_bind, Option.some_bind]
    · intro k hklt
      cases k with
      | zero =>
        have e : (s.currentDigit + 0) % 4 = s.currentDigit := by omega
        rw [e]
        exact ⟨by simp [hframe], frame, hframe⟩
      | succ k =>
        have e : ((s.currentDigit + 1) % 4 + k) % 4 = (s.currentDigit + (k + 1)) % 4 := by omega
        have := hk k (by omega)
        simp only [e, frameAt_congr] at this
        simpa using this

/-- The digit-select byte of the frame for a position inside the display. -/
theorem frameAt_select (s : State) (p : Nat) (hp : p < 4) :
    ∃ frame sel, frameAt s p = some frame ∧ digitSelect[p]? = some sel ∧
      ofMsbBits ((writesTo DATA_PIN frame).drop 8) = sel := by
  obtain ⟨value, hvalue⟩ := buffer_get?_lt s.displayBuffer p hp
  obtain ⟨pattern, hpattern, -, -⟩ := lookup_pattern value
  obtain ⟨sel, hsel, hlt⟩ := digitSelect_lt p hp
  refine ⟨shiftOut16 (if s.decimalPoints.testBit p then pattern ||| 0x80 else pattern) sel, sel,
    ?_, hsel, wire_select_byte _ sel hlt⟩
  simp only [frameAt, hvalue, hpattern, hsel, Option.bind_eq_bind, Option.some_bind]

/-- Frames for different positions are different. -/
theorem frameAt_injective (s : State) (p q : Nat) (hp : p < 4) (hq : q < 4)
    (h : frameAt s p = frameAt s q) : p = q := by
  obtain ⟨fp, sp, hfp, hsp, hwp⟩ := frameAt_select s p hp
  obtain ⟨fq, sq, hfq, hsq, hwq⟩ := frameAt_select s q hq
  rw [hfp, hfq, Option.some.injEq] at h
  have hsel : sp = sq := by rw [← hwp, ← hwq, h]
  subst hsel
  interval_cases p <;> interval_cases q <;> simp [digitSelect] at hsp hsq <;> omega

/-- C6: from `currentDigit = i < 4`, the `n`-th subsequent call of
`refreshDisplay` (n = 0, 1, ...) drives position `(i + n) mod 4` and leaves
`currentDigit = (i + n + 1) mod 4`; from `currentDigit = 0`, five calls drive
positions 0, 1, 2, 3, 0 in that order; frames of different positions differ. -/
theorem refresh_multiplex_order (s : State) (i : Nat) (hcur : s.currentDigit = i) (hi : i < 4) :
    (∀ n, ∃ frames frame,
      refreshN (n + 1) s = some ({ s with currentDigit := (i + n + 1) % 4 }, frames) ∧
      frames.length = n + 1 ∧
      frames[n]? = some frame ∧
      frameAt s ((i + n) % 4) = some frame) ∧
    (i = 0 → ∃ f0 f1 f2 f3,
      frameAt s 0 = some f0 ∧ frameAt s 1 = some f1 ∧
      frameAt s 2 = some f2 ∧ frameAt s 3 = some f3 ∧
      refreshN 4 s = some (s, [f0, f1, f2, f3]) ∧
      refreshN 5 s = some ({ s with currentDigit := 1 }, [f0, f1, f2, f3, f0])) ∧
    (∀ p q, p < 4 → q < 4 → frameAt s p = frameAt s q → p = q) := by
  subst hcur
  refine ⟨?_, ?_, fun p q hp hq h => frameAt_injective s p q hp hq h⟩
  · intro n
    obtain ⟨frames, hrun, hlen, hk⟩ := refreshN_eq (n + 1) s hi
    obtain ⟨hget, frame, hframe⟩ := hk n (Nat.lt_succ_self n)
    exact ⟨frames, frame, hrun, hlen, by rw [hget, hframe], hframe⟩
  · intro h0
    obtain ⟨frames5, hrun5, hlen5, hk5⟩ := refreshN_eq 5 s hi
    obtain ⟨frames4, hrun4, hlen4, hk4⟩ := refreshN_eq 4 s hi
    obtain ⟨g0, f0, e0⟩ := hk5 0 (by decide)
    obtain ⟨g1, f1, e1⟩ := hk5 1 (by decide)
    obtain ⟨g2, f2, e2⟩ := hk5 2 (by decide)
    obtain ⟨g3, f3, e3⟩ := hk5 3 (by decide)
    obtain ⟨g4, -, -⟩ := hk5 4 (by decide)
    obtain ⟨k0, -, -⟩ := hk4 0 (by decide)
    obtain ⟨k1, -, -⟩ := hk4 1 (by decide)
    obtain ⟨k2, -, -⟩ := hk4 2 (by decide)
    obtain ⟨k3, -, -⟩ := hk4 3 (by decide)
    have hs : ({ s with currentDigit := 0 } : State) = s := by
      cases s
      simp only [State.mk.injEq, true_and] at h0 ⊢
      exact h0.symm
    rw [h0] at hrun5 hrun4 g0 g1 g2 g3 g4 k0 k1 k2 k3 e0 e1 e2 e3
    simp only [Nat.zero_add, Nat.reduceMod, e0, e1, e2, e3, hs] at hrun5 hrun4 g0 g1 g2 g3 g4 k0 k1 k2 k3
    refine ⟨f0, f1, f2, f3, e0, e1, e2, e3, ?_, ?_⟩
    · rw [hrun4]
      rcases frames4 with _ | ⟨a, _ | ⟨b, _ | ⟨c, _ | ⟨d, _ | ⟨x, rest⟩⟩⟩⟩⟩ <;>
        simp at hlen4
      simp at k0 k1 k2 k3
      rw [k0, k1, k2, k3]
    · rw [hrun5]
      rcases frames5 with _ | ⟨a, _ | ⟨b, _ | ⟨c, _ | ⟨d, _ | ⟨e, _ | ⟨x, rest⟩⟩⟩⟩⟩⟩ <;>
        simp at hlen5
      simp at g0 g1 g2 g3 g4
      rw [g0, g1, g2, g3, g4]

/-- C6 from the initial state: the third call (n = 2) drives position 2. -/
theorem refresh_multiplex_order_witness :
    ∃ frames frame,
      refreshN (2 + 1) State.init = some ({ State.init with currentDigit := (0 + 2 + 1) % 4 }, frames) ∧
      frames.length = 2 + 1 ∧
      frames[2]? = some frame ∧
      frameAt State.init ((0 + 2) % 4) = some frame :=
  (refresh_multiplex_order State.init 0 rfl (by decide)).1 2


/-! ## Theorems: `displayTemperature` -/

theorem toU8_natCast (k : Nat) : toU8 (k : Int) = k % 256 := by
  unfold toU8; omega

theorem toI16_natCast (m : Nat) (hm : m ≤ 32767) : toI16 (m : Int) = (m : Int) := by
  unfold toI16; omega

/-- The three digits computed by `displayTemperature` from a clamped magnitude. -/
theorem temperature_digits (k : Nat) (hk : k ≤ 999) :
    toU8 ((k : Int).tdiv 100) = k / 100 ∧
    toU8 (((k : Int).tdiv 10).tmod 10) = k / 10 % 10 ∧
    toU8 ((k : Int).tmod 10) = k % 10 := by
  have e1 : (k : Int).tdiv 100 = ((k / 100 : Nat) : Int) := (Int.ofNat_tdiv k 100).symm
  have e2 : (k : Int).tdiv 10 = ((k / 10 : Nat) : Int) := (Int.ofNat_tdiv k 10).symm
  have e3 : ((k / 10 : Nat) : Int).tmod 10 = ((k / 10 % 10 : Nat) : Int) :=
    (Int.ofNat_tmod (k / 10) 10).symm
  have e4 : (k : Int).tmod 10 = ((k % 10 : Nat) : Int) := (Int.ofNat_tmod k 10).symm
  rw [e1, e2, e3, e4, toU8_natCast, toU8_natCast, toU8_natCast]
  omega

/-- Closed form of `displayTemperature` on a non-negative input. -/
theorem displayTemperature_nonneg (s : State) (m : Nat) :
    displayTemperature s (m : Int) =
      { displayBuffer :=
          { d0 := if 0 < min m 999 / 100 then min m 999 / 100 else CHAR_BLANK,
            d1 := min m 999 / 10 % 10,
            d2 := min m 999 % 10,
            d3 := CHAR_BLANK },
        decimalPoints := 0b0010,
        currentDigit := s.currentDigit } := by
  have hneg : decide ((m : Int) < 0) = false := by
    simp
  have hclamp : (if (m : Int) > 999 then (999 : Int) else (m : Int)) = ((min m 999 : Nat) : Int) := by
    split_ifs <;> omega
  have hle : min m 999 ≤ 999 := Nat.min_le_right _ _
  obtain ⟨h1, h2, h3⟩ := temperature_digits (min m 999) hle
  simp only [displayTemperature, hneg, hclamp, h1, h2, h3, Bool.false_eq_true, if_false]
  generalize min m 999 = k at hle
  have a1 : k / 100 % 256 = k / 100 := by omega
  have a2 : k / 10 % 10 % 256 = k / 10 % 10 := by omega
  have a3 : k % 10 % 256 = k % 10 := by omega
  by_cases hz : 0 < k / 100
  · simp [State.setBuf, Buffer.set, CHAR_BLANK, hz, a1, a2, a3]
  · simp [State.setBuf, Buffer.set, CHAR_BLANK, hz, a2, a3]

/-- Closed form of `displayTemperature` on a negative input above `-2^15`. -/
theorem displayTemperature_neg (s : State) (m : Nat) (h1 : 1 ≤ m) (hm : m ≤ 32767) :
    displayTemperature s (-(m : Int)) =
      { displayBuffer :=
          { d0 := CHAR_BLANK,
            d1 := if 0 < min m 999 / 100 then min m 999 / 100 else CHAR_BLANK,
            d2 := min m 999 / 10 % 10,
            d3 := min m 999 % 10 },
        decimalPoints := 0b0100,
        currentDigit := s.currentDigit } := by
  have hneg : decide (-(m : Int) < 0) = true := by
    simp; omega
  have hmag : toI16 (- -(m : Int)) = (m : Int) := by
    rw [neg_neg]; exact toI16_natCast m hm
  have hclamp : (if (m : Int) > 999 then (999 : Int) else (m : Int)) = ((min m 999 : Nat) : Int) := by
    split_ifs <;> omega
  have hle : min m 999 ≤ 999 := Nat.min_le_right _ _
  obtain ⟨h1, h2, h3⟩ := temperature_digits (min m 999) hle
  simp only [displayTemperature, hneg, hmag, hclamp, h1, h2, h3, if_true]
  generalize min m 999 = k at hle
  have a1 : k / 100 % 256 = k / 100 := by omega
  have a2 : k / 10 % 10 % 256 = k / 10 % 10 := by omega
  have a3 : k % 10 % 256 = k % 10 := by omega
  by_cases hz : 0 < k / 100
  · simp [State.setBuf, Buffer.set, CHAR_BLANK, hz, a1, a2, a3]
  · simp [State.setBuf, Buffer.set, CHAR_BLANK, hz, a2, a3]

/-- C8: for `tempTenths` in `[0, 999]`, `displayTemperature` leaves the buffer
`[h or BLANK, t, o, BLANK]` (`h`, `t`, `o` the hundreds, tens and ones digits of
`tempTenths`; BLANK when `h = 0`) and the decimal-point mask `0b0010`: the
point is on position 1 and no position is reserved for a sign. -/
theorem displayTemperature_positive_layout (s : State) (tempTenths : Nat)
    (h : tempTenths ≤ 999) :
    (displayTemperature s (tempTenths : Int)).displayBuffer.toList =
      [ if 0 < tempTenths / 100 then tempTenths / 100 else CHAR_BLANK,
        tempTenths / 10 % 10,
        tempTenths % 10,
        CHAR_BLANK ] ∧
    (displayTemperature s (tempTenths : Int)).decimalPoints = 0b0010 ∧
    (∀ p, p < 4 → ((displayTemperature s (tempTenths : Int)).decimalPoints.testBit p = true ↔
      p = 1)) ∧
    (displayTemperature s 385).displayBuffer.toList = [3, 8, 5, CHAR_BLANK] ∧
    (displayTemperature s 385).decimalPoints = 0b0010 := by
  have hmin : min tempTenths 999 = tempTenths := Nat.min_eq_left h
  have h385 := displayTemperature_nonneg s 385
  rw [Nat.cast_ofNat] at h385
  refine ⟨?_, ?_, ?_, ?_, ?_⟩
  · rw [displayTemperature_nonneg, hmin]
    rfl
  · rw [displayTemperature_nonneg]
  · intro p hp
    rw [displayTemperature_nonneg]
    dsimp only
    interval_cases p <;> decide
  · rw [h385]
    simp [Buffer.toList]
  · rw [h385]

/-- C8 at 38.5 degrees. -/
theorem displayTemperature_positive_layout_witness :
    (displayTemperature State.init ((385 : Nat) : Int)).displayBuffer.toList =
      [ if 0 < 385 / 100 then 385 / 100 else CHAR_BLANK, 385 / 10 % 10, 385 % 10, CHAR_BLANK ] :=
  (displayTemperature_positive_layout State.init 385 (by decide)).1

/-- C9: for a magnitude `m` in `[1, 999]`, the layout of `-m` is the layout of
`m` moved one position to the right: position 0 is BLANK, position `i + 1`
holds what position `i` holds for `m` (i = 0, 1, 2), and the decimal-point mask
is the one for `m` shifted left by one, `0b0100`. -/
theorem displayTemperature_negative_shift (s : State) (m : Nat) (hlo : 1 ≤ m) (hhi : m ≤ 999) :
    (displayTemperature s (-(m : Int))).displayBuffer.get? 0 = some CHAR_BLANK ∧
    (∀ i, i < 3 →
      (displayTemperature s (-(m : Int))).displayBuffer.get? (i + 1) =
        (displayTemperature s (m : Int)).displayBuffer.get? i) ∧
    (displayTemperature s (-(m : Int))).decimalPoints =
      (displayTemperature s (m : Int)).decimalPoints <<< 1 ∧
    (displayTemperature s (-(m : Int))).decimalPoints = 0b0100 ∧
    (displayTemperature s (-45)).displayBuffer.toList = [CHAR_BLANK, CHAR_BLANK, 4, 5] ∧
    (∀ p, p < 4 → ((displayTemperature s (-45)).decimalPoints.testBit p = true ↔ p = 2)) := by
  have h45 := displayTemperature_neg s 45 (by decide) (by decide)
  rw [Nat.cast_ofNat] at h45
  refine ⟨?_, ?_, ?_, ?_, ?_, ?_⟩
  · rw [displayTemperature_neg s m hlo (by omega)]
    rfl
  · intro i hi
    rw [displayTemperature_neg s m hlo (by omega), displayTemperature_nonneg]
    interval_cases i <;> rfl
  · rw [displayTemperature_neg s m hlo (by omega), displayTemperature_nonneg]
    dsimp only
    decide
  · rw [displayTemperature_neg s m hlo (by omega)]
  · rw [h45]
    simp [Buffer.toList, CHAR_BLANK]
  · intro p hp
    rw [h45]
    dsimp only
    interval_cases p <;> decide

/-- C9 at -4.5 degrees. -/
theorem displayTemperature_negative_shift_witness :
    (displayTemperature State.init (-((45 : Nat) : Int))).displayBuffer.get? 0 = some CHAR_BLANK ∧
    (∀ i, i < 3 →
      (displayTemperature State.init (-((45 : Nat) : Int))).displayBuffer.get? (i + 1) =
        (displayTemperature State.init ((45 : Nat) : Int)).displayBuffer.get? i) :=
  ⟨(displayTemperature_negative_shift State.init 45 (by decide) (by decide)).1,
   (displayTemperature_negative_shift State.init 45 (by decide) (by decide)).2.1⟩

/-- Saturation of `displayTemperature` away from the most negative input: every
`tempTenths` in `(999, 32767]` is displayed as 999 is, and every `tempTenths` in
`[-32767, -999)` as -999 is. -/
theorem displayTemperature_saturates_in_range (s : State) (tempTenths : Int) :
    (999 < tempTenths → tempTenths ≤ 32767 →
      displayTemperature s tempTenths = displayTemperature s 999) ∧
    (-32767 ≤ tempTenths → tempTenths < -999 →
      displayTemperature s tempTenths = displayTemperature s (-999)) := by
  constructor
  · intro hlo hhi
    obtain ⟨m, rfl⟩ := Int.eq_ofNat_of_zero_le (by omega : 0 ≤ tempTenths)
    have h999 := displayTemperature_nonneg s 999
    rw [Nat.cast_ofNat] at h999
    rw [displayTemperature_nonneg, h999]
    have : min m 999 = 999 := by omega
    rw [this]
    rfl
  · intro hlo hhi
    obtain ⟨m, hm⟩ := Int.eq_ofNat_of_zero_le (by omega : 0 ≤ -tempTenths)
    have ht : tempTenths = -(m : Int) := by omega
    subst ht
    have h999 := displayTemperature_neg s 999 (by decide) (by decide)
    rw [Nat.cast_ofNat] at h999
    rw [displayTemperature_neg s m (by omega) (by omega), h999]
    have : min m 999 = 999 := by omega
    rw [this]
    rfl

/-- C10, at the input the code does not saturate: with negation modulo `2^16`,
`displayTemperature (-32768)` leaves the buffer `[BLANK, 185, 250, 248]`, which
is not the buffer `[BLANK, 9, 9, 9]` left by `displayTemperature (-999)`. -/
theorem displayTemperature_int16_min :
    (displayTemperature State.init (-32768)).displayBuffer.toList = [CHAR_BLANK, 185, 250, 248] ∧
    (displayTemperature State.init (-999)).displayBuffer.toList = [CHAR_BLANK, 9, 9, 9] ∧
    (displayTemperature State.init (-32768)).decimalPoints = 0b0100 ∧
    displayTemperature State.init (-32768) ≠ displayTemperature State.init (-999) := by
  decide


/-! ## Theorems: setters, out-of-table values, the segment table, `clearDisplay` -/

/-- C11: for every position from 4 to 255, every value and every flag,
`setDigit` and `setDecimalPoint` leave the whole state unchanged, and the
operation produces no output event, hence no pin write. -/
theorem invalid_position_noop (s : State) (position value : Nat) (onFlag : Bool)
    (hlo : 4 ≤ position) (hhi : position < 256) :
    setDigit s position value = s ∧
    setDecimalPoint s position onFlag = s ∧
    step s (Op.setDigit position value) = some (s, []) ∧
    step s (Op.setDecimalPoint position onFlag) = some (s, []) ∧
    (∀ s1 events, step s (Op.setDigit position value) = some (s1, events) →
      pinWrites events = []) ∧
    (∀ s1 events, step s (Op.setDecimalPoint position onFlag) = some (s1, events) →
      pinWrites events = []) := by
  have _hhi := hhi
  have hpos : ¬ position < NUM_DIGITS := by
    simp only [NUM_DIGITS]; omega
  have h1 : setDigit s position value = s := by
    simp only [setDigit, if_neg hpos]
  have h2 : setDecimalPoint s position onFlag = s := by
    simp only [setDecimalPoint, if_neg hpos]
  refine ⟨h1, h2, ?_, ?_, ?_, ?_⟩
  · simp only [step, h1]
  · simp only [step, h2]
  · intro s1 events h
    simp only [step, Option.some.injEq, Prod.mk.injEq] at h
    rw [← h.2]
    rfl
  · intro s1 events h
    simp only [step, Option.some.injEq, Prod.mk.injEq] at h
    rw [← h.2]
    rfl

/-- C11 at position 4, after a temperature has been formatted. -/
theorem invalid_position_noop_witness :
    setDigit (displayTemperature State.init 385) 4 7 = displayTemperature State.init 385 ∧
    setDecimalPoint (displayTemperature State.init 385) 4 true =
      displayTemperature State.init 385 :=
  ⟨(invalid_position_noop (displayTemperature State.init 385) 4 7 true
      (by decide) (by decide)).1,
   (invalid_position_noop (displayTemperature State.init 385) 4 7 true
      (by decide) (by decide)).2.1⟩

/-- Reading back a buffer cell that has just been written. -/
theorem buffer_get?_set (b : Buffer) (i v : Nat) (hi : i < 4) : (b.set i v).get? i = some v := by
  interval_cases i <;> rfl

/-- C12: when the value stored at the current position is above 16,
`refreshDisplay` transmits the frame it transmits when that value is BLANK:
segment pattern 0, with the decimal-point bit when it is set for the position;
no read outside a table occurs (the call returns a result). -/
theorem refreshDisplay_out_of_table (s : State) (i v : Nat)
    (hcur : s.currentDigit = i) (hi : i < 4)
    (hv : s.displayBuffer.get? i = some v) (hlo : 16 < v) (hhi : v < 256) :
    ∃ digitSel frame,
      digitSelect[i]? = some digitSel ∧
      frame = shiftOut16 (if s.decimalPoints.testBit i then 0x80 else 0) digitSel ∧
      refreshDisplay s = some ({ s with currentDigit := (i + 1) % 4 }, frame) ∧
      refreshDisplay { s with displayBuffer := s.displayBuffer.set i CHAR_BLANK } =
        some ({ s with displayBuffer := s.displayBuffer.set i CHAR_BLANK,
                       currentDigit := (i + 1) % 4 }, frame) := by
  have _hhi := hhi
  subst hcur
  obtain ⟨sel, hsel, -⟩ := digitSelect_lt s.currentDigit hi
  have hmod : (s.currentDigit + 1) % 4 % 256 = (s.currentDigit + 1) % 4 := by omega
  have hnot : ¬ v ≤ 16 := by omega
  have hblank : (if CHAR_BLANK ≤ 16 then segmentPatterns[CHAR_BLANK]? else some 0) = some 0 := by
    decide
  have hor : (0 ||| 0b10000000) % 256 = 0x80 := by decide
  refine ⟨sel, _, hsel, rfl, ?_, ?_⟩
  · simp only [refreshDisplay, hv, hsel, if_neg hnot, Option.bind_eq_bind, Option.some_bind,
      NUM_DIGITS, hmod, and_shift_ne_zero_iff, hor]
  · simp only [refreshDisplay, buffer_get?_set _ _ _ hi, hsel, hblank, Option.bind_eq_bind,
      Option.some_bind, NUM_DIGITS, hmod, and_shift_ne_zero_iff, hor]

/-- C12 at the state left by the call `setDigit 0 200`. -/
theorem refreshDisplay_out_of_table_witness :
    ∃ digitSel frame,
      digitSelect[0]? = some digitSel ∧
      frame = shiftOut16 (if (setDigit State.init 0 200).decimalPoints.testBit 0 then 0x80 else 0)
        digitSel ∧
      refreshDisplay (setDigit State.init 0 200) =
        some ({ setDigit State.init 0 200 with currentDigit := (0 + 1) % 4 }, frame) :=
  (refreshDisplay_out_of_table (setDigit State.init 0 200) 0 200 rfl (by decide) rfl
    (by decide) (by decide)).imp (fun _ h => h.imp (fun _ h2 => ⟨h2.1, h2.2.1, h2.2.2.1⟩))

/-- C13: the segment table is the documented 7-segment encoding: entry `value`
lights exactly the segments documented for that glyph (bit 0 = A, ..., bit 6 = G,
bit 7 = DP), BLANK (16) maps to 0, no entry has the DP bit, and the 17 entries
are pairwise distinct. -/
theorem segmentPatterns_documented :
    segmentPatterns.length = 17 ∧
    segmentPatterns = documentedSegments.map encodeSegments ∧
    (∀ value, value < 17 → ∀ seg, seg ∈ Segment.all →
      ((segmentPatterns.getD value 0).testBit seg.bit = true ↔
        seg ∈ documentedSegments.getD value [])) ∧
    segmentPatterns[CHAR_BLANK]? = some 0 ∧
    (∀ pattern, pattern ∈ segmentPatterns → pattern.testBit Segment.DP.bit = false) ∧
    (∀ pattern, pattern ∈ segmentPatterns → pattern < 256) ∧
    segmentPatterns.Nodup := by
  refine ⟨by decide, by decide, by decide, by decide, by decide, by decide, by decide⟩

/-- C14: `clearDisplay` is one call of `shiftOut16` whose 16 DATA bits are all
1: the segment byte on the wire is `0xFF` (every segment off) and the
digit-select byte is `0xFF` (no position enabled); the trace has one STROBE
pulse. -/
theorem clearDisplay_frame :
    clearDisplay = shiftOut16 0x00 0xFF ∧
    writesTo DATA_PIN clearDisplay = [1, 1, 1, 1, 1, 1, 1, 1, 1, 1, 1, 1, 1, 1, 1, 1] ∧
    ofMsbBits ((writesTo DATA_PIN clearDisplay).take 8) = 0xFF ∧
    ofMsbBits ((writesTo DATA_PIN clearDisplay).drop 8) = 0xFF ∧
    (∀ b, b < 8 → (ofMsbBits ((writesTo DATA_PIN clearDisplay).drop 8)).testBit b = true) ∧
    writesTo STROBE_PIN clearDisplay = [HIGH, LOW] ∧
    (∀ s, step s Op.clearDisplay = some (s, shiftOut16 0x00 0xFF)) := by
  have hseg := wire_segment_byte 0x00 0xFF (by decide)
  have hsel := wire_select_byte 0x00 0xFF (by decide)
  refine ⟨rfl, ?_, hseg, hsel, ?_, ?_, fun s => rfl⟩
  · simp only [clearDisplay]
    rw [writesTo_data_shiftOut16, toU8_bitNot 0 (by decide)]
    decide
  · intro b hb
    simp only [clearDisplay]
    rw [hsel]
    interval_cases b <;> decide
  · simp only [clearDisplay, writesTo]
    rw [pinWrites_shiftOut16]
    simp [msbBits, DATA_PIN, CLOCK_PIN, STROBE_PIN]

/-! ## Theorems: frame conditions and invariants -/

/-- The frame of `displayNumber`: only `displayBuffer` is written. -/
theorem displayNumber_keeps (s : State) (n : Nat) (lz : Bool) :
    (displayNumber s n lz).decimalPoints = s.decimalPoints ∧
    (displayNumber s n lz).currentDigit = s.currentDigit := by
  simp only [displayNumber]
  split_ifs <;> exact ⟨rfl, rfl⟩

/-- The frame of `setDigit`: only `displayBuffer` is written. -/
theorem setDigit_keeps (s : State) (position value : Nat) :
    (setDigit s position value).decimalPoints = s.decimalPoints ∧
    (setDigit s position value).currentDigit = s.currentDigit := by
  simp only [setDigit]
  split_ifs <;> exact ⟨rfl, rfl⟩

/-- The frame of `setDecimalPoint`: only `decimalPoints` is written. -/
theorem setDecimalPoint_keeps (s : State) (position : Nat) (onFlag : Bool) :
    (setDecimalPoint s position onFlag).displayBuffer = s.displayBuffer ∧
    (setDecimalPoint s position onFlag).currentDigit = s.currentDigit := by
  simp only [setDecimalPoint]
  split_ifs <;> exact ⟨rfl, rfl⟩

/-- The frame of `displayTemperature`: `currentDigit` is not written. -/
theorem displayTemperature_keeps (s : State) (tempTenths : Int) :
    (displayTemperature s tempTenths).currentDigit = s.currentDigit := by
  simp only [displayTemperature]
  split_ifs <;> rfl

/-- Every operation keeps `currentDigit` inside the display, and returns. -/
theorem step_currentDigit (s : State) (op : Op) (hs : s.currentDigit < 4) :
    ∃ s1 events, step s op = some (s1, events) ∧ s1.currentDigit < 4 := by
  cases op with
  | setDigit position value =>
    exact ⟨_, _, rfl, by rw [(setDigit_keeps s position value).2]; exact hs⟩
  | setDecimalPoint position onFlag =>
    exact ⟨_, _, rfl, by rw [(setDecimalPoint_keeps s position onFlag).2]; exact hs⟩
  | displayNumber number leadingZeros =>
    exact ⟨_, _, rfl, by rw [(displayNumber_keeps s number leadingZeros).2]; exact hs⟩
  | displayTemperature tempTenths =>
    exact ⟨_, _, rfl, by rw [displayTemperature_keeps s tempTenths]; exact hs⟩
  | refreshDisplay =>
    obtain ⟨frame, -, hrefresh⟩ := refreshDisplay_eq s hs
    exact ⟨_, frame, hrefresh, Nat.mod_lt _ (by decide)⟩
  | clearDisplay =>
    exact ⟨s, _, rfl, hs⟩

/-- Every sequence of operations, run from a state whose `currentDigit` is
inside the display, returns and ends in such a state. -/
theorem run_currentDigit : ∀ (ops : List Op) (s : State), s.currentDigit < 4 →
    ∃ s1 events, run s ops = some (s1, events) ∧ s1.currentDigit < 4 := by
  intro ops
  induction ops with
  | nil =>
    intro s hs
    exact ⟨s, [], rfl, hs⟩
  | cons op ops ih =>
    intro s hs
    obtain ⟨s1, events1, hstep, hs1⟩ := step_currentDigit s op hs
    obtain ⟨s2, events2, hrun, hs2⟩ := ih s1 hs1
    refine ⟨s2, events1 ++ events2, ?_, hs2⟩
    simp only [run, hstep, hrun, Option.bind_eq_bind, Option.some_bind]

/-- The digit-select pattern of a position has exactly bit `i` cleared. -/
theorem digitSelect_bits (i : Nat) (hi : i < 4) :
    ∃ sel, digitSelect[i]? = some sel ∧ sel < 256 ∧
      ∀ b, b < 8 → (sel.testBit b = false ↔ b = i) := by
  interval_cases i
  · exact ⟨0b11111110, rfl, by decide, by decide⟩
  · exact ⟨0b11111101, rfl, by decide, by decide⟩
  · exact ⟨0b11111011, rfl, by decide, by decide⟩
  · exact ⟨0b11110111, rfl, by decide, by decide⟩

/-- C17: in every state reached from the initial state by any sequence of
public operations, `currentDigit` is below 4; so the reads
`displayBuffer[currentDigit]` and `digitSelect[currentDigit]` of
`refreshDisplay` are in bounds, the call returns, and the digit-select byte of
its frame has exactly one cleared bit, the one of `currentDigit`. -/
theorem currentDigit_invariant (ops : List Op) :
    ∃ s events, run State.init ops = some (s, events) ∧
      s.currentDigit < NUM_DIGITS ∧
      (∃ value, s.displayBuffer.get? s.currentDigit = some value) ∧
      (∃ sel, digitSelect[s.currentDigit]? = some sel) ∧
      ∃ s1 frame, refreshDisplay s = some (s1, frame) ∧
        s1.currentDigit < NUM_DIGITS ∧
        ∀ b, b < 8 →
          ((ofMsbBits ((writesTo DATA_PIN frame).drop 8)).testBit b = false ↔
            b = s.currentDigit) := by
  obtain ⟨s, events, hrun, hs⟩ := run_currentDigit ops State.init (by decide)
  obtain ⟨frame, hframe, hrefresh⟩ := refreshDisplay_eq s hs
  obtain ⟨frame2, sel, hframe2, hsel, hwire⟩ := frameAt_select s s.currentDigit hs
  obtain ⟨sel2, hsel2, -, hbits⟩ := digitSelect_bits s.currentDigit hs
  rw [hframe, Option.some.injEq] at hframe2
  rw [hsel, Option.some.injEq] at hsel2
  subst hframe2 hsel2
  refine ⟨s, events, hrun, hs, buffer_get?_lt _ _ hs, ⟨sel, hsel⟩, _, frame, hrefresh,
    Nat.mod_lt _ (by decide), ?_⟩
  intro b hb
  rw [hwire]
  exact hbits b hb

/-- The cells of a buffer are digit values exactly when each of the four is. -/
theorem digitValues_iff (b : Buffer) :
    (∀ v, v ∈ b.toList → isDigitValue v) ↔
      b.d0 ≤ 16 ∧ b.d1 ≤ 16 ∧ b.d2 ≤ 16 ∧ b.d3 ≤ 16 := by
  simp [Buffer.toList, isDigitValue, CHAR_BLANK]

/-- The buffer written by `displayNumber` holds digit values only. -/
theorem displayNumber_digitValues (s : State) (n : Nat) (lz : Bool) :
    ∀ v, v ∈ (displayNumber s n lz).displayBuffer.toList → isDigitValue v := by
  rw [digitValues_iff, displayNumber_buffer]
  simp only [CHAR_BLANK]
  refine ⟨?_, ?_, ?_, ?_⟩
  · split_ifs <;> omega
  · split_ifs <;> omega
  · split_ifs <;> omega
  · omega

/-- The buffer written by `displayTemperature` holds digit values only, for
every input whose magnitude fits `int16_t`. -/
theorem displayTemperature_digitValues (s : State) (tempTenths : Int)
    (hlo : -32767 ≤ tempTenths) (hhi : tempTenths ≤ 32767) :
    ∀ v, v ∈ (displayTemperature s tempTenths).displayBuffer.toList → isDigitValue v := by
  rw [digitValues_iff]
  by_cases hsign : 0 ≤ tempTenths
  · obtain ⟨m, rfl⟩ := Int.eq_ofNat_of_zero_le hsign
    rw [displayTemperature_nonneg]
    have hle : min m 999 ≤ 999 := Nat.min_le_right _ _
    simp only [CHAR_BLANK]
    refine ⟨?_, ?_, ?_, ?_⟩
    · split_ifs <;> omega
    · omega
    · omega
    · omega
  · obtain ⟨m, hm⟩ := Int.eq_ofNat_of_zero_le (by omega : 0 ≤ -tempTenths)
    have ht : tempTenths = -(m : Int) := by omega
    subst ht
    rw [displayTemperature_neg s m (by omega) (by omega)]
    have hle : min m 999 ≤ 999 := Nat.min_le_right _ _
    simp only [CHAR_BLANK]
    refine ⟨?_, ?_, ?_, ?_⟩
    · omega
    · split_ifs <;> omega
    · omega
    · omega

/-- The buffer written by `setDigit` holds digit values only, when it did
before and the value written is one. -/
theorem setDigit_digitValues (s : State) (position value : Nat) (hvalue : value ≤ 16)
    (hs : ∀ v, v ∈ s.displayBuffer.toList → isDigitValue v) :
    ∀ v, v ∈ (setDigit s position value).displayBuffer.toList → isDigitValue v := by
  rw [digitValues_iff] at hs ⊢
  obtain ⟨h0, h1, h2, h3⟩ := hs
  have hmod : value % 256 ≤ 16 := by omega
  simp only [setDigit, NUM_DIGITS]
  by_cases hp : position < 4
  · rw [if_pos hp]
    interval_cases position
    · exact ⟨hmod, h1, h2, h3⟩
    · exact ⟨h0, hmod, h2, h3⟩
    · exact ⟨h0, h1, hmod, h3⟩
    · exact ⟨h0, h1, h2, hmod⟩
  · rw [if_neg hp]
    exact ⟨h0, h1, h2, h3⟩

/-- Every operation with documented arguments keeps the buffer within the
digit values. -/
theorem step_digitValues (s : State) (op : Op) (hop : op.documented)
    (hs : ∀ v, v ∈ s.displayBuffer.toList → isDigitValue v)
    (s1 : State) (events : List Event) (hstep : step s op = some (s1, events)) :
    ∀ v, v ∈ s1.displayBuffer.toList → isDigitValue v := by
  cases op with
  | setDigit position value =>
    simp only [step, Option.some.injEq, Prod.mk.injEq] at hstep
    rw [← hstep.1]
    exact setDigit_digitValues s position value hop hs
  | setDecimalPoint position onFlag =>
    simp only [step, Option.some.injEq, Prod.mk.injEq] at hstep
    rw [← hstep.1, (setDecimalPoint_keeps s position onFlag).1]
    exact hs
  | displayNumber number leadingZeros =>
    simp only [step, Option.some.injEq, Prod.mk.injEq] at hstep
    rw [← hstep.1]
    exact displayNumber_digitValues s number leadingZeros
  | displayTemperature tempTenths =>
    simp only [step, Option.some.injEq, Prod.mk.injEq] at hstep
    rw [← hstep.1]
    exact displayTemperature_digitValues s tempTenths hop.1 hop.2
  | refreshDisplay =>
    simp only [step, refreshDisplay, Option.bind_eq_bind, Option.bind_eq_some,
      Option.some.injEq, Prod.mk.injEq] at hstep
    obtain ⟨_, _, _, _, _, _, h, _⟩ := hstep
    rw [← h]
    exact hs
  | clearDisplay =>
    simp only [step, Option.some.injEq, Prod.mk.injEq] at hstep
    rw [← hstep.1]
    exact hs

/-- Sequences of operations with documented arguments return and keep the
buffer within the digit values. -/
theorem run_digitValues : ∀ (ops : List Op) (s : State), s.currentDigit < 4 →
    (∀ v, v ∈ s.displayBuffer.toList → isDigitValue v) →
    (∀ op, op ∈ ops → op.documented) →
    ∃ s1 events, run s ops = some (s1, events) ∧
      ∀ v, v ∈ s1.displayBuffer.toList → isDigitValue v := by
  intro ops
  induction ops with
  | nil =>
    intro s _ hs _
    exact ⟨s, [], rfl, hs⟩
  | cons op ops ih =>
    intro s hcur hs hops
    obtain ⟨s1, events1, hstep, hcur1⟩ := step_currentDigit s op hcur
    have hs1 := step_digitValues s op (hops op (List.mem_cons_self op ops)) hs s1 events1 hstep
    obtain ⟨s2, events2, hrun, hs2⟩ :=
      ih s1 hcur1 hs1 (fun o ho => hops o (List.mem_cons_of_mem op ho))
    refine ⟨s2, events1 ++ events2, ?_, hs2⟩
    simp only [run, hstep, hrun, Option.bind_eq_bind, Option.some_bind]

/-- C15, as stated, fails: after `clearDisplay` the buffer set by
`displayNumber 1234` still holds 1, 2, 3, 4 (no position holds BLANK), and the
next `refreshDisplay` transmits the segments of digit 1 (wire byte `0xF9`, not
the all-off `0xFF`). -/
theorem clearDisplay_buffer_counterexample :
    step (displayNumber State.init 1234 false) Op.clearDisplay =
      some (displayNumber State.init 1234 false, clearDisplay) ∧
    (displayNumber State.init 1234 false).displayBuffer.toList = [1, 2, 3, 4] ∧
    CHAR_BLANK ∉ (displayNumber State.init 1234 false).displayBuffer.toList ∧
    (run (displayNumber State.init 1234 false) [Op.clearDisplay, Op.refreshDisplay]).map
        (fun r => ofMsbBits ((writesTo DATA_PIN (r.2.drop clearDisplay.length)).take 8)) =
      some 0xF9 := by
  refine ⟨rfl, by decide, by decide, by decide⟩

/-- C15, amended: `clearDisplay` writes no global: `displayBuffer`,
`decimalPoints` and `currentDigit` are left as they were and its only effect is
the one blank frame; a `refreshDisplay` that follows transmits the frame it
would have transmitted without the `clearDisplay`. -/
theorem clearDisplay_state_unchanged (s : State) :
    step s Op.clearDisplay = some (s, clearDisplay) ∧
    run s [Op.clearDisplay] = some (s, clearDisplay) ∧
    run s [Op.clearDisplay, Op.refreshDisplay] =
      (refreshDisplay s).map (fun r => (r.1, clearDisplay ++ r.2)) := by
  refine ⟨rfl, ?_, ?_⟩
  · simp [run, step]
  · cases h : refreshDisplay s with
    | none => simp [run, step, h]
    | some r => simp [run, step, h]

/-- C16, as stated, fails: `setDigit 0 200` stores 200, which is no digit value. -/
theorem digit_values_counterexample :
    run State.init [Op.setDigit 0 200] =
      some ({ displayBuffer := { d0 := 200, d1 := 0, d2 := 0, d3 := 0 },
              decimalPoints := 0, currentDigit := 0 }, []) ∧
    200 ∈ (setDigit State.init 0 200).displayBuffer.toList ∧
    ¬ isDigitValue 200 := by
  refine ⟨by decide, by decide, ?_⟩
  simp [isDigitValue, CHAR_BLANK]

/-- C16, amended: in every state reached from the initial state by a sequence
of public operations in which every `setDigit` value is at most 16 and every
`displayTemperature` argument lies in `[-32767, 32767]`, every `displayBuffer`
entry is a digit value (0-15 or BLANK). -/
theorem digit_values_invariant (ops : List Op) (hops : ∀ op, op ∈ ops → op.documented) :
    ∃ s events, run State.init ops = some (s, events) ∧
      ∀ v, v ∈ s.displayBuffer.toList → isDigitValue v := by
  refine run_digitValues ops State.init (by decide) ?_ hops
  rw [digitValues_iff]
  decide

/-- C16, amended, at the sequence temperature -4.5, blank position 3, refresh. -/
theorem digit_values_invariant_witness :
    ∃ s events,
      run State.init [Op.displayTemperature (-45), Op.setDigit 3 16, Op.refreshDisplay] =
        some (s, events) ∧
      ∀ v, v ∈ s.displayBuffer.toList → isDigitValue v :=
  digit_values_invariant [Op.displayTemperature (-45), Op.setDigit 3 16, Op.refreshDisplay]
    (by
      intro op hop
      simp only [List.mem_cons, List.mem_singleton, List.not_mem_nil, or_false] at hop
      rcases hop with rfl | rfl | rfl
      · exact ⟨by decide, by decide⟩
      · exact (by decide : (16 : Nat) ≤ CHAR_BLANK)
      · exact True.intro)

/-- C20: `displayNumber` leaves `decimalPoints` and `currentDigit` as they were
(a decimal point set by `displayTemperature` is still set after
`displayNumber`), and `refreshDisplay` leaves `displayBuffer` and
`decimalPoints` as they were: it writes `currentDigit` only. -/
theorem formatter_and_tick_frame (s : State) (number : Nat) (leadingZeros : Bool) :
    (displayNumber s number leadingZeros).decimalPoints = s.decimalPoints ∧
    (displayNumber s number leadingZeros).currentDigit = s.currentDigit ∧
    (displayNumber (displayTemperature s 385) number leadingZeros).decimalPoints = 0b0010 ∧
    (displayNumber (displayTemperature s 385) number leadingZeros).decimalPoints.testBit 1
      = true ∧
    (∀ s1 frame, refreshDisplay s = some (s1, frame) →
      s1.displayBuffer = s.displayBuffer ∧ s1.decimalPoints = s.decimalPoints ∧
      s1 = { s with currentDigit := s1.currentDigit }) ∧
    (s.currentDigit < 4 → ∃ s1 frame, refreshDisplay s = some (s1, frame) ∧
      s1 = { s with currentDigit := (s.currentDigit + 1) % 4 }) := by
  have h385 := displayTemperature_nonneg s 385
  rw [Nat.cast_ofNat] at h385
  have hdp : (displayNumber (displayTemperature s 385) number leadingZeros).decimalPoints
      = 0b0010 := by
    rw [(displayNumber_keeps _ number leadingZeros).1, h385]
  refine ⟨(displayNumber_keeps s number leadingZeros).1,
    (displayNumber_keeps s number leadingZeros).2, hdp, ?_, ?_, ?_⟩
  · rw [hdp]
    decide
  · intro s1 frame h
    simp only [refreshDisplay, Option.bind_eq_bind, Option.bind_eq_some,
      Option.some.injEq, Prod.mk.injEq] at h
    obtain ⟨_, _, _, _, _, _, h1, _⟩ := h
    rw [← h1]
    exact ⟨rfl, rfl, rfl⟩
  · intro hcur
    obtain ⟨frame, -, hrefresh⟩ := refreshDisplay_eq s hcur
    exact ⟨_, frame, hrefresh, rfl⟩

/-- C20 at the state left by `displayTemperature 385`: a refresh returns and
leaves buffer and decimal points as they were. -/
theorem formatter_and_tick_frame_witness :
    ∃ s1 frame, refreshDisplay (displayTemperature State.init 385) = some (s1, frame) ∧
      s1 = { displayTemperature State.init 385 with
             currentDigit := ((displayTemperature State.init 385).currentDigit + 1) % 4 } :=
  (formatter_and_tick_frame (displayTemperature State.init 385) 42 false).2.2.2.2.2 (by decide)

/-! ## Theorems: `setDecimalPoint` -/

/-- Two states with the same three globals are the same state. -/
theorem State.eq_of_fields (a b : State) (h1 : a.displayBuffer = b.displayBuffer)
    (h2 : a.decimalPoints = b.decimalPoints) (h3 : a.currentDigit = b.currentDigit) : a = b := by
  cases a
  cases b
  simp only [State.mk.injEq]
  exact ⟨h1, h2, h3⟩

/-- A byte has no bit at index 8 or above. -/
theorem testBit_byte_high (x b : Nat) (hx : x < 256) (hb : 8 ≤ b) : x.testBit b = false := by
  apply Nat.testBit_lt_two_pow
  calc x < 2 ^ 8 := by omega
    _ ≤ 2 ^ b := Nat.pow_le_pow_right (by decide) hb

/-- The mask computed by `decimalPoints |= (1 << position)`. -/
theorem dp_set_eq (dp p : Nat) (hp : p < 4) (hdp : dp < 256) :
    toU8 (Int.lor (dp : Int) ((1 <<< p : Nat) : Int)) = dp ||| 2 ^ p := by
  have h1 : Int.lor (dp : Int) ((1 <<< p : Nat) : Int) = ((dp ||| 1 <<< p : Nat) : Int) := rfl
  rw [h1, toU8_natCast, Nat.one_shiftLeft]
  apply Nat.mod_eq_of_lt
  have h2p : 2 ^ p < 2 ^ 8 := Nat.pow_lt_pow_right (by decide) (by omega)
  exact Nat.or_lt_two_pow (n := 8) (by omega) h2p

/-- The mask computed by `decimalPoints &= ~(1 << position)`. -/
theorem dp_clear_eq (dp p : Nat) (hdp : dp < 256) :
    toU8 (Int.land (dp : Int) (bitNot ((1 <<< p : Nat) : Int))) = Nat.ldiff dp (2 ^ p) := by
  have h1 : bitNot ((1 <<< p : Nat) : Int) = Int.negSucc (1 <<< p) := by
    rw [Int.negSucc_eq]
    unfold bitNot
    omega
  have h2 : Int.land (dp : Int) (Int.negSucc (1 <<< p)) = ((Nat.ldiff dp (1 <<< p) : Nat) : Int) :=
    rfl
  rw [h1, h2, toU8_natCast, Nat.one_shiftLeft]
  apply Nat.mod_eq_of_lt
  have : Nat.ldiff dp (2 ^ p) < 2 ^ 8 := by
    apply Nat.lt_pow_two_of_testBit
    intro i hi
    rw [Nat.testBit_ldiff, testBit_byte_high dp i hdp hi]
    rfl
  omega

/-- Closed form of `setDecimalPoint` for a position inside the display. -/
theorem setDecimalPoint_eq (s : State) (p : Nat) (onFlag : Bool) (hp : p < 4)
    (hdp : s.decimalPoints < 256) :
    setDecimalPoint s p onFlag =
      { s with decimalPoints :=
          if onFlag then s.decimalPoints ||| 2 ^ p else Nat.ldiff s.decimalPoints (2 ^ p) } := by
  have hpos : p < NUM_DIGITS := hp
  cases onFlag
  · simp only [setDecimalPoint, if_pos hpos, dp_clear_eq _ p hdp, Bool.false_eq_true, if_false]
  · simp only [setDecimalPoint, if_pos hpos, dp_set_eq _ p hp hdp, if_true]

/-- The bits of the mask left by `setDecimalPoint`. -/
theorem setDecimalPoint_testBit (s : State) (p : Nat) (onFlag : Bool) (hp : p < 4)
    (hdp : s.decimalPoints < 256) (b : Nat) :
    (setDecimalPoint s p onFlag).decimalPoints.testBit b =
      if b = p then onFlag else s.decimalPoints.testBit b := by
  rw [setDecimalPoint_eq s p onFlag hp hdp]
  cases onFlag
  · simp only [Bool.false_eq_true, if_false, Nat.testBit_ldiff, Nat.testBit_two_pow]
    by_cases hb : b = p
    · subst hb; simp
    · have : ¬ p = b := fun h => hb h.symm
      simp [hb, this]
  · simp only [if_true, Nat.testBit_or, Nat.testBit_two_pow]
    by_cases hb : b = p
    · subst hb; simp
    · have : ¬ p = b := fun h => hb h.symm
      simp [hb, this]

/-- The mask left by `setDecimalPoint` is a byte. -/
theorem setDecimalPoint_lt (s : State) (p : Nat) (onFlag : Bool) (hp : p < 4)
    (hdp : s.decimalPoints < 256) : (setDecimalPoint s p onFlag).decimalPoints < 256 := by
  have : (setDecimalPoint s p onFlag).decimalPoints < 2 ^ 8 := by
    apply Nat.lt_pow_two_of_testBit
    intro i hi
    rw [setDecimalPoint_testBit s p onFlag hp hdp i, testBit_byte_high _ i hdp hi]
    have : ¬ i = p := by omega
    simp [this]
  omega

/-- C18: for a position `p < 4`, `setDecimalPoint p on` makes bit `p` of
`decimalPoints` equal to `on`, leaves every other bit, `displayBuffer` and
`currentDigit` as they were; it is idempotent, and calls on distinct positions
commute. -/
theorem setDecimalPoint_bit (s : State) (p : Nat) (onFlag : Bool) (hp : p < 4)
    (hdp : s.decimalPoints < 256) :
    (setDecimalPoint s p onFlag).decimalPoints.testBit p = onFlag ∧
    (∀ b, b ≠ p →
      (setDecimalPoint s p onFlag).decimalPoints.testBit b = s.decimalPoints.testBit b) ∧
    (setDecimalPoint s p onFlag).decimalPoints < 256 ∧
    (setDecimalPoint s p onFlag).displayBuffer = s.displayBuffer ∧
    (setDecimalPoint s p onFlag).currentDigit = s.currentDigit ∧
    setDecimalPoint (setDecimalPoint s p onFlag) p onFlag = setDecimalPoint s p onFlag ∧
    (∀ q flag, q < 4 → q ≠ p →
      setDecimalPoint (setDecimalPoint s p onFlag) q flag =
        setDecimalPoint (setDecimalPoint s q flag) p onFlag) := by
  have hlt := setDecimalPoint_lt s p onFlag hp hdp
  refine ⟨?_, ?_, hlt, (setDecimalPoint_keeps s p onFlag).1, (setDecimalPoint_keeps s p onFlag).2,
    ?_, ?_⟩
  · rw [setDecimalPoint_testBit s p onFlag hp hdp p, if_pos rfl]
  · intro b hb
    rw [setDecimalPoint_testBit s p onFlag hp hdp b, if_neg hb]
  · apply State.eq_of_fields
    · rw [(setDecimalPoint_keeps _ p onFlag).1]
    · apply Nat.eq_of_testBit_eq
      intro b
      rw [setDecimalPoint_testBit _ p onFlag hp hlt b, setDecimalPoint_testBit s p onFlag hp hdp b]
      by_cases hb : b = p
      · simp [hb]
      · simp [hb]
    · rw [(setDecimalPoint_keeps _ p onFlag).2]
  · intro q flag hq hqp
    have hltq := setDecimalPoint_lt s q flag hq hdp
    apply State.eq_of_fields
    · rw [(setDecimalPoint_keeps _ q flag).1, (setDecimalPoint_keeps _ p onFlag).1,
        (setDecimalPoint_keeps _ p onFlag).1, (setDecimalPoint_keeps _ q flag).1]
    · apply Nat.eq_of_testBit_eq
      intro b
      rw [setDecimalPoint_testBit _ q flag hq hlt b, setDecimalPoint_testBit s p onFlag hp hdp b,
        setDecimalPoint_testBit _ p onFlag hp hltq b, setDecimalPoint_testBit s q flag hq hdp b]
      by_cases hbq : b = q
      · simp [hbq, hqp]
      · simp [hbq]
    · rw [(setDecimalPoint_keeps _ q flag).2, (setDecimalPoint_keeps _ p onFlag).2,
        (setDecimalPoint_keeps _ p onFlag).2, (setDecimalPoint_keeps _ q flag).2]

/-- C18 at position 2 of the state left by `displayTemperature 385`. -/
theorem setDecimalPoint_bit_witness :
    (setDecimalPoint (displayTemperature State.init 385) 2 true).decimalPoints.testBit 2 = true ∧
    (∀ b, b ≠ 2 →
      (setDecimalPoint (displayTemperature State.init 385) 2 true).decimalPoints.testBit b =
        (displayTemperature State.init 385).decimalPoints.testBit b) :=
  ⟨(setDecimalPoint_bit (displayTemperature State.init 385) 2 true (by decide) (by decide)).1,
   (setDecimalPoint_bit (displayTemperature State.init 385) 2 true (by decide) (by decide)).2.1⟩

/-! ## Theorems: the shift register chain -/

/-- The chain after `shiftOut16`, whatever it held before. -/
theorem chain_run_shiftOut16 (c : Chain) (segments digitSel : Nat) :
    (c.run (shiftOut16 segments digitSel)).outputs =
      (msbBits digitSel).reverse ++ (msbBits (toU8 (bitNot segments))).reverse := by
  simp [shiftOut16, shiftLoop, Chain.run, Chain.write, DATA_PIN, CLOCK_PIN, STROBE_PIN, HIGH, LOW,
    msbBits, Nat.shiftRight_eq_div_pow, List.take_take]

/-- Bit `i` of a number, as the 0/1 level it is shifted out as. -/
theorem div_mod_eq_testBit (x i : Nat) : x / 2 ^ i % 2 = if x.testBit i then 1 else 0 := by
  rw [Nat.testBit_to_div_mod]
  by_cases h : x / 2 ^ i % 2 = 1
  · simp [h]
  · have h0 : x / 2 ^ i % 2 = 0 := by omega
    simp [h0]

/-- The outputs of the chain after `shiftOut16`, stage by stage. -/
theorem chain_outputs_getElem? (c : Chain) (segments digitSel : Nat) (i : Nat) (hi : i < 8) :
    (c.run (shiftOut16 segments digitSel)).outputs[i]? = some (digitSel / 2 ^ i % 2) ∧
    (c.run (shiftOut16 segments digitSel)).outputs[8 + i]? =
      some (toU8 (bitNot segments) / 2 ^ i % 2) := by
  rw [chain_run_shiftOut16]
  interval_cases i <;> simp [msbBits]

/-- C19: over the model of the two-register cascade, whatever the chain held
before, the STROBE pulse of `shiftOut16` latches `U7.QPi` = bit `i` of the
complement of `segments` (stage `8 + i`) and `U6.QPi` = bit `i` of `digitSel`
(stage `i`), for `i = 0..7`; with `digitSel = digitSelect[p]` only `U6.QPp` is
low. -/
theorem chain_latched_outputs (c : Chain) (segments digitSel : Nat)
    (hs : segments < 256) (hd : digitSel < 256) :
    (c.run (shiftOut16 segments digitSel)).outputs.length = 16 ∧
    (∀ i, i < 8 →
      (c.run (shiftOut16 segments digitSel)).outputs[8 + i]? =
        some ((255 - segments) / 2 ^ i % 2)) ∧
    (∀ i, i < 8 →
      (c.run (shiftOut16 segments digitSel)).outputs[8 + i]? =
        some (if segments.testBit i then 0 else 1)) ∧
    (∀ i, i < 8 →
      (c.run (shiftOut16 segments digitSel)).outputs[i]? =
        some (if digitSel.testBit i then 1 else 0)) ∧
    (∀ p sel, p < 4 → digitSelect[p]? = some sel → ∀ q, q < 8 →
      (c.run (shiftOut16 segments sel)).outputs[q]? = some (if q = p then 0 else 1)) := by
  have _hd := hd
  refine ⟨?_, ?_, ?_, ?_, ?_⟩
  · rw [chain_run_shiftOut16]
    simp [msbBits]
  · intro i hi
    rw [(chain_outputs_getElem? c segments digitSel i hi).2, toU8_bitNot segments hs]
  · intro i hi
    rw [(chain_outputs_getElem? c segments digitSel i hi).2, toU8_bitNot segments hs,
      div_mod_eq_testBit, testBit_complement segments i hs hi]
    cases segments.testBit i <;> rfl
  · intro i hi
    rw [(chain_outputs_getElem? c segments digitSel i hi).1, div_mod_eq_testBit]
  · intro p sel hp hsel q hq
    obtain ⟨sel2, hsel2, -, hbits⟩ := digitSelect_bits p hp
    rw [hsel, Option.some.injEq] at hsel2
    subst hsel2
    rw [(chain_outputs_getElem? c segments sel q hq).1, div_mod_eq_testBit]
    by_cases hqp : q = p
    · have := (hbits q hq).2 hqp
      rw [this, if_pos hqp]
      rfl
    · have : sel.testBit q = true := by
        cases h : sel.testBit q
        · exact absurd ((hbits q hq).1 h) hqp
        · rfl
      simp [this, hqp]

/-- C19 at a chain holding all ones, with the frame of digit 0 at position 0:
segment A (`U7.QP0`) is driven low, hence lit. -/
theorem chain_latched_outputs_witness :
    ((Chain.mk [1, 1, 1, 1, 1, 1, 1, 1, 1, 1, 1, 1, 1, 1, 1, 1] [] 0).run
        (shiftOut16 0x3F 0xFE)).outputs[8 + 0]? =
      some (if (0x3F : Nat).testBit 0 then 0 else 1) :=
  (chain_latched_outputs (Chain.mk [1, 1, 1, 1, 1, 1, 1, 1, 1, 1, 1, 1, 1, 1, 1, 1] [] 0)
    0x3F 0xFE (by decide) (by decide)).2.2.1 0 (by decide)

end SpaControl
